import Mathlib

/-!
A shallow embedding of the quadtree spatial index of the `exigra` repository
(`src/quadtree/mod.rs` and `src/quadtree/quad_val.rs`), with the geometry layer
of `bevy`'s `Rect`/`Vec2` that the code uses.  Coordinates are modelled as
exact rationals; the `f32` square-root comparisons of the source are modelled
by the equivalent comparisons of squared distances (for nonnegative radii,
`dist <= r` iff `0 <= r` and `dist^2 <= r^2`).
-/

namespace Exigra

/-- 2D vector, `bevy::math::Vec2` with rational coordinates. -/
structure Vec2 where
  x : ℚ
  y : ℚ
deriving DecidableEq, Repr

instance : Add Vec2 := ⟨fun a b => ⟨a.x + b.x, a.y + b.y⟩⟩
instance : Sub Vec2 := ⟨fun a b => ⟨a.x - b.x, a.y - b.y⟩⟩

@[simp] theorem Vec2.add_x (a b : Vec2) : (a + b).x = a.x + b.x := rfl

@[simp] theorem Vec2.add_y (a b : Vec2) : (a + b).y = a.y + b.y := rfl

@[simp] theorem Vec2.sub_x (a b : Vec2) : (a - b).x = a.x - b.x := rfl

@[simp] theorem Vec2.sub_y (a b : Vec2) : (a - b).y = a.y - b.y := rfl

/-- Componentwise minimum (`Vec2::min`). -/
def Vec2.vmin (a b : Vec2) : Vec2 := ⟨min a.x b.x, min a.y b.y⟩

/-- Componentwise maximum (`Vec2::max`). -/
def Vec2.vmax (a b : Vec2) : Vec2 := ⟨max a.x b.x, max a.y b.y⟩

/-- Squared Euclidean distance; `Vec2::distance` squared. -/
def Vec2.dist2 (a b : Vec2) : ℚ := (a.x - b.x) ^ 2 + (a.y - b.y) ^ 2

/-- `distance a b <= r`, expressed on squared distances: since `distance` is the
nonnegative square root of `dist2`, this holds iff `0 <= r` and `dist2 <= r^2`. -/
def sqrtLe (d2 r : ℚ) : Bool := decide (0 ≤ r ∧ d2 ≤ r ^ 2)

/-- `bevy::math::Rect`: axis-aligned rectangle given by two corners. -/
structure Rect where
  min : Vec2
  max : Vec2
deriving DecidableEq, Repr

/-- `Rect::from_corners`: normalizes with componentwise min/max. -/
def Rect.from_corners (p q : Vec2) : Rect := ⟨p.vmin q, p.vmax q⟩

/-- `Rect::from_center_half_size` (no normalization in bevy). -/
def Rect.from_center_half_size (c hs : Vec2) : Rect := ⟨c - hs, c + hs⟩

/-- `Rect::center` = `(min + max) * 0.5`. -/
def Rect.center (r : Rect) : Vec2 := ⟨(r.min.x + r.max.x) / 2, (r.min.y + r.max.y) / 2⟩

/-- `Rect::half_size` = `(max - min) * 0.5`. -/
def Rect.half_size (r : Rect) : Vec2 := ⟨(r.max.x - r.min.x) / 2, (r.max.y - r.min.y) / 2⟩

/-- `Rect::width`. -/
def Rect.width (r : Rect) : ℚ := r.max.x - r.min.x

/-- `Rect::height`. -/
def Rect.height (r : Rect) : ℚ := r.max.y - r.min.y

/-- `Rect::contains`: inclusive on all edges. -/
def Rect.contains (r : Rect) (p : Vec2) : Bool :=
  decide (r.min.x ≤ p.x ∧ p.x ≤ r.max.x ∧ r.min.y ≤ p.y ∧ p.y ≤ r.max.y)

/-- `Rect::intersect`: corner clamping plus the min-over-max collapse bevy
performs to keep `min ≤ max`. -/
def Rect.intersect (r o : Rect) : Rect :=
  let mn := r.min.vmax o.min
  let mx := r.max.vmin o.max
  ⟨mn.vmin mx, mx⟩

/-- `Rect::is_empty`: `min.cmpge(max).any()`. -/
def Rect.is_empty (r : Rect) : Bool := decide (r.max.x ≤ r.min.x ∨ r.max.y ≤ r.min.y)

/-- `bevy::prelude::Rectangle`: rectangle primitive described by half extents.
`Rectangle::new(w, h)` sets `half_size = (w/2, h/2)`. -/
structure Rectangle where
  half_size : Vec2
deriving DecidableEq, Repr

/-- `Rectangle::new`. -/
def Rectangle.new (w h : ℚ) : Rectangle := ⟨⟨w / 2, h / 2⟩⟩

/-- `bevy::prelude::Circle`. -/
structure Circle where
  radius : ℚ
deriving DecidableEq, Repr

/-- `bevy::prelude::Capsule2d` (vertical stadium: `radius`, `half_length`). -/
structure Capsule2d where
  radius : ℚ
  half_length : ℚ
deriving DecidableEq, Repr

/-- `Shape` from `quad_val.rs`. -/
inductive Shape where
  | quad (r : Rectangle)
  | circle (c : Circle)
  | capsule (c : Capsule2d)
deriving DecidableEq, Repr

/-- `QuadVal` from `quad_val.rs`: a positioned shape. -/
structure QuadVal where
  pos : Vec2
  shape : Shape
deriving DecidableEq, Repr

/-- `QuadVal::aabb`. -/
def QuadVal.aabb (v : QuadVal) : Rect :=
  match v.shape with
  | .quad rectangle => Rect.from_center_half_size v.pos rectangle.half_size
  | .circle ci => Rect.from_center_half_size v.pos ⟨ci.radius, ci.radius⟩
  | .capsule capsule =>
      Rect.from_center_half_size v.pos ⟨capsule.radius, capsule.half_length + capsule.radius⟩

/-- `QuadVal::center`. -/
def QuadVal.center (v : QuadVal) : Vec2 := v.pos

/-- `QuadVal::is_contained_by`: both AABB corners inside `bounds`. -/
def QuadVal.is_contained_by (v : QuadVal) (bounds : Rect) : Bool :=
  bounds.contains v.aabb.min && bounds.contains v.aabb.max

/-- `rects_intersect` from `quad_val.rs` (inclusive AABB overlap). -/
def rects_intersect (rect other : Rect) : Bool :=
  decide ((rect.min.x ≤ other.max.x ∧ other.min.x ≤ rect.max.x) ∧
          (rect.min.y ≤ other.max.y ∧ other.min.y ≤ rect.max.y))

/-- `rectangles_intersect` from `quad_val.rs`. -/
def rectangles_intersect (pos1 : Vec2) (rectangle1 : Rectangle) (pos2 : Vec2)
    (rectangle2 : Rectangle) : Bool :=
  rects_intersect (Rect.from_center_half_size pos1 rectangle1.half_size)
    (Rect.from_center_half_size pos2 rectangle2.half_size)

/-- The closest point on a rectangle to a circle center, as computed inside
`rectangle_circle_intersect`. -/
def close_pt (rect : Rect) (c_center : Vec2) : Vec2 :=
  ⟨max rect.min.x (min c_center.x rect.max.x), max rect.min.y (min c_center.y rect.max.y)⟩

/-- `rectangle_circle_intersect` from `quad_val.rs`. -/
def rectangle_circle_intersect (rect_pos : Vec2) (rectangle : Rectangle) (c_center : Vec2)
    (c_radius : ℚ) : Bool :=
  let rect := Rect.from_center_half_size rect_pos rectangle.half_size
  sqrtLe (Vec2.dist2 (close_pt rect c_center) c_center) c_radius

/-- `circles_intersect` from `quad_val.rs`. -/
def circles_intersect (c1 : Vec2) (r1 : ℚ) (c2 : Vec2) (r2 : ℚ) : Bool :=
  sqrtLe (Vec2.dist2 c1 c2) (r1 + r2)

/-- `rectangle_capsule_intersect` from `quad_val.rs` (the `[c1, c2].any`
unrolled). -/
def rectangle_capsule_intersect (rect_pos : Vec2) (rectangle : Rectangle) (c_pos : Vec2)
    (capsule : Capsule2d) : Bool :=
  let c_internal_rect := Rect.from_center_half_size c_pos ⟨capsule.radius, capsule.half_length⟩
  let rect := Rect.from_center_half_size rect_pos rectangle.half_size
  let c1 := c_pos + ⟨0, capsule.half_length⟩
  let c2 := c_pos - ⟨0, capsule.half_length⟩
  rects_intersect rect c_internal_rect
    || rectangle_circle_intersect rect_pos rectangle c1 capsule.radius
    || rectangle_circle_intersect rect_pos rectangle c2 capsule.radius

/-- `circle_capsule_intersect` from `quad_val.rs` (the `[c1, c2].any`
unrolled). -/
def circle_capsule_intersect (c_center : Vec2) (c_radius : ℚ) (cap_center : Vec2)
    (capsule : Capsule2d) : Bool :=
  let cap_intern_rect :=
    Rect.from_center_half_size cap_center ⟨capsule.radius, capsule.half_length⟩
  let c1 := cap_center + ⟨0, capsule.half_length⟩
  let c2 := cap_center - ⟨0, capsule.half_length⟩
  rectangle_circle_intersect cap_intern_rect.center
      (Rectangle.new cap_intern_rect.width cap_intern_rect.height) c_center c_radius
    || circles_intersect c_center c_radius c1 capsule.radius
    || circles_intersect c_center c_radius c2 capsule.radius

/-- `capsules_intersect` from `quad_val.rs`, with the nested `any` closures over
the two endpoint pairs unrolled. -/
def capsules_intersect (c1 : Vec2) (capsule1 : Capsule2d) (c2 : Vec2)
    (capsule2 : Capsule2d) : Bool :=
  let intern_rect1 := Rectangle.new (capsule1.radius * 2) (capsule1.half_length * 2)
  let intern_rect2 := Rectangle.new (capsule2.radius * 2) (capsule2.half_length * 2)
  let c1c1 := c1 + ⟨0, capsule1.half_length⟩
  let c1c2 := c1 - ⟨0, capsule1.half_length⟩
  let c2c1 := c2 + ⟨0, capsule2.half_length⟩
  let c2c2 := c2 - ⟨0, capsule2.half_length⟩
  let r1 := capsule1.radius
  let r2 := capsule2.radius
  let inner := fun center_1 =>
    rectangle_circle_intersect c2 intern_rect2 center_1 r1
      || (rectangle_circle_intersect c1 intern_rect1 c2c1 r2
            || circles_intersect center_1 r1 c2c1 r2)
      || (rectangle_circle_intersect c1 intern_rect1 c2c2 r2
            || circles_intersect center_1 r1 c2c2 r2)
  rectangles_intersect c1 intern_rect1 c2 intern_rect2 || inner c1c1 || inner c1c2

/-- `QuadVal::intersects`: dispatch over the 3×3 shape-kind matrix. -/
def QuadVal.intersects (v other : QuadVal) : Bool :=
  match v.shape with
  | .quad rectangle =>
    match other.shape with
    | .quad rectangle2 => rectangles_intersect v.pos rectangle other.pos rectangle2
    | .circle ci => rectangle_circle_intersect v.pos rectangle other.pos ci.radius
    | .capsule capsule => rectangle_capsule_intersect v.pos rectangle other.pos capsule
  | .circle ci =>
    match other.shape with
    | .quad rectangle => rectangle_circle_intersect other.pos rectangle v.pos ci.radius
    | .circle ci2 => circles_intersect v.pos ci.radius other.pos ci2.radius
    | .capsule capsule => circle_capsule_intersect v.pos ci.radius other.pos capsule
  | .capsule capsule =>
    match other.shape with
    | .quad rectangle => rectangle_capsule_intersect other.pos rectangle v.pos capsule
    | .circle ci => circle_capsule_intersect other.pos ci.radius v.pos capsule
    | .capsule capsule2 => capsules_intersect v.pos capsule other.pos capsule2

/-- The `AsQuadVal` trait. -/
class AsQuadVal (T : Type) where
  as_quad_val : T → QuadVal

export AsQuadVal (as_quad_val)

instance : AsQuadVal QuadVal := ⟨fun v => v⟩

/-- `impl AsQuadVal for Rect`: centered quad of the rect's width/height. -/
instance : AsQuadVal Rect :=
  ⟨fun r => ⟨r.center, .quad (Rectangle.new r.width r.height)⟩⟩

/-- `impl AsQuadVal for Vec2`: a zero-radius circle at the point. -/
instance : AsQuadVal Vec2 := ⟨fun p => ⟨p, .circle ⟨0⟩⟩⟩

end Exigra

namespace Exigra

/-- `Quadtree::THRESHOLD` (`mod.rs` line 38). -/
def THRESHOLD : Nat := 32

/-- `Quadtree::MAX_DEPTH` (`mod.rs` line 39). -/
def MAX_DEPTH : Nat := 8

/-- A `QNode`: the code maintains the all-or-none invariant on the four
children (`is_leaf` checks `children[0]` and every other access `expect`s the
remaining children), so the embedding is either a leaf or a node with exactly
four children. -/
inductive QNode (T : Type) where
  | leaf (values : List T)
  | node (c0 c1 c2 c3 : QNode T) (values : List T)
deriving DecidableEq, Repr

variable {T : Type}

/-- `QNode::is_leaf`. -/
def QNode.is_leaf : QNode T → Bool
  | .leaf _ => true
  | .node _ _ _ _ _ => false

/-- Height of a node; used only as a termination measure for `insert`. -/
def QNode.ht : QNode T → Nat
  | .leaf _ => 0
  | .node c0 c1 c2 c3 _ => 1 + (max (max c0.ht c1.ht) (max c2.ht c3.ht))

/-- All values stored in a subtree, own values first, then children 0..3 in
order. -/
def QNode.allVals : QNode T → List T
  | .leaf vs => vs
  | .node c0 c1 c2 c3 vs => vs ++ c0.allVals ++ c1.allVals ++ c2.allVals ++ c3.allVals

/-- `compute_bounds` from `mod.rs`. -/
def compute_bounds (parent : Rect) (idx : Fin 4) : Rect :=
  let origin : Vec2 := ⟨parent.min.x, parent.min.y⟩
  let child_size := parent.half_size
  match idx with
  | 0 => Rect.from_corners origin (origin + child_size)
  | 1 => Rect.from_corners (origin + ⟨child_size.x, 0⟩)
      (origin + ⟨child_size.x * 2, child_size.y⟩)
  | 2 => Rect.from_corners (origin + child_size) (origin + ⟨child_size.x * 2, child_size.y * 2⟩)
  | 3 => Rect.from_corners (origin + ⟨0, child_size.y⟩)
      (origin + ⟨child_size.x, child_size.y * 2⟩)

/-- `find_quadrant` from `mod.rs`. -/
def find_quadrant (bounds : Rect) (val : QuadVal) : Option (Fin 4) :=
  let center := bounds.center
  if ¬ val.is_contained_by bounds then none
  else
    let shape := val.aabb
    if shape.max.x < center.x then
      if shape.max.y < center.y then some 0
      else if shape.min.y ≥ center.y then some 3
      else none
    else if shape.min.x ≥ center.x then
      if shape.max.y < center.y then some 1
      else if shape.min.y ≥ center.y then some 2
      else none
    else none

variable [AsQuadVal T]

/-- `group_by_quadrant` from `mod.rs`: partition into the four quadrant groups
plus the group kept by the parent.  The source pushes each item into exactly
one bucket while scanning in order, so each bucket is the corresponding
filter. -/
def group_by_quadrant (bounds : Rect) (items : List T) :
    List T × List T × List T × List T × List T :=
  (items.filter fun it => find_quadrant bounds (as_quad_val it) = some 0,
   items.filter fun it => find_quadrant bounds (as_quad_val it) = some 1,
   items.filter fun it => find_quadrant bounds (as_quad_val it) = some 2,
   items.filter fun it => find_quadrant bounds (as_quad_val it) = some 3,
   items.filter fun it => find_quadrant bounds (as_quad_val it) = none)

/-- `QNode::subdivide` applied to a leaf holding `vs` (the function asserts
`is_leaf`): four children initialized from the quadrant groups, straddlers
kept. -/
def subdivideLeaf (bounds : Rect) (vs : List T) : QNode T :=
  match group_by_quadrant bounds vs with
  | (g0, g1, g2, g3, keep) => .node (.leaf g0) (.leaf g1) (.leaf g2) (.leaf g3) keep

/-- `QNode::insert`.  The source's leaf-overflow branch calls `subdivide` and
retries `insert` on the now-interior node at the same depth; that retry is
unfolded here (the retried insert lands either in a child, which is one of the
fresh leaves, or in the kept values). -/
def QNode.insert (n : QNode T) (bounds : Rect) (depth : Nat) (val : T) : QNode T :=
  match n with
  | .node c0 c1 c2 c3 vs =>
    match find_quadrant bounds (as_quad_val val) with
    | some 0 => .node (c0.insert (compute_bounds bounds 0) (depth + 1) val) c1 c2 c3 vs
    | some 1 => .node c0 (c1.insert (compute_bounds bounds 1) (depth + 1) val) c2 c3 vs
    | some 2 => .node c0 c1 (c2.insert (compute_bounds bounds 2) (depth + 1) val) c3 vs
    | some 3 => .node c0 c1 c2 (c3.insert (compute_bounds bounds 3) (depth + 1) val) vs
    | none => .node c0 c1 c2 c3 (vs ++ [val])
  | .leaf vs =>
    if h : MAX_DEPTH ≤ depth ∨ vs.length < THRESHOLD then .leaf (vs ++ [val])
    else
      match group_by_quadrant bounds vs with
      | (g0, g1, g2, g3, keep) =>
        match find_quadrant bounds (as_quad_val val) with
        | some 0 => .node ((QNode.leaf g0).insert (compute_bounds bounds 0) (depth + 1) val)
            (.leaf g1) (.leaf g2) (.leaf g3) keep
        | some 1 => .node (.leaf g0) ((QNode.leaf g1).insert (compute_bounds bounds 1)
            (depth + 1) val) (.leaf g2) (.leaf g3) keep
        | some 2 => .node (.leaf g0) (.leaf g1) ((QNode.leaf g2).insert (compute_bounds bounds 2)
            (depth + 1) val) (.leaf g3) keep
        | some 3 => .node (.leaf g0) (.leaf g1) (.leaf g2) ((QNode.leaf g3).insert
            (compute_bounds bounds 3) (depth + 1) val) keep
        | none => .node (.leaf g0) (.leaf g1) (.leaf g2) (.leaf g3) (keep ++ [val])
termination_by n.ht + (MAX_DEPTH - depth)
decreasing_by
all_goals simp only [QNode.ht]
all_goals omega

end Exigra

namespace Exigra

variable {T : Type} [AsQuadVal T]

/-- `QNode::insert_many`.  As with `insert`, the leaf-overflow branch's
`subdivide`-then-retry is unfolded: the retry partitions the incoming items and
batch-inserts each non-empty quadrant bucket into the corresponding fresh leaf
child, appending the remaining bucket to the kept values. -/
def QNode.insert_many (n : QNode T) (bounds : Rect) (depth : Nat) (items : List T) : QNode T :=
  match n with
  | .node c0 c1 c2 c3 vs =>
    match group_by_quadrant bounds items with
    | (h0, h1, h2, h3, hkeep) =>
      .node (if h0.isEmpty then c0 else c0.insert_many (compute_bounds bounds 0) (depth + 1) h0)
        (if h1.isEmpty then c1 else c1.insert_many (compute_bounds bounds 1) (depth + 1) h1)
        (if h2.isEmpty then c2 else c2.insert_many (compute_bounds bounds 2) (depth + 1) h2)
        (if h3.isEmpty then c3 else c3.insert_many (compute_bounds bounds 3) (depth + 1) h3)
        (vs ++ hkeep)
  | .leaf vs =>
    if h : vs.length + items.length ≤ THRESHOLD ∨ MAX_DEPTH ≤ depth then .leaf (vs ++ items)
    else
      match group_by_quadrant bounds vs, group_by_quadrant bounds items with
      | (g0, g1, g2, g3, keep), (h0, h1, h2, h3, hkeep) =>
        .node
          (if h0.isEmpty then .leaf g0
            else (QNode.leaf g0).insert_many (compute_bounds bounds 0) (depth + 1) h0)
          (if h1.isEmpty then .leaf g1
            else (QNode.leaf g1).insert_many (compute_bounds bounds 1) (depth + 1) h1)
          (if h2.isEmpty then .leaf g2
            else (QNode.leaf g2).insert_many (compute_bounds bounds 2) (depth + 1) h2)
          (if h3.isEmpty then .leaf g3
            else (QNode.leaf g3).insert_many (compute_bounds bounds 3) (depth + 1) h3)
          (keep ++ hkeep)
termination_by n.ht + (MAX_DEPTH - depth)
decreasing_by
all_goals simp only [QNode.ht]
all_goals omega

/-- `QNode::remove_found_val`: swap-remove of the first occurrence, no-op when
the value is absent. -/
def remove_found_val [DecidableEq T] (vs : List T) (val : T) : List T :=
  match vs.findIdx? (fun v => val = v) with
  | none => vs
  | some i => (vs.set i (vs.getD (vs.length - 1) val)).dropLast

/-- `QNode::try_merge` on an interior node (the function asserts
`!is_leaf`): merge all-leaf children back into the parent when the total count
fits the threshold; the returned flag tells the caller's parent to try as
well. -/
def tryMergeNode (c0 c1 c2 c3 : QNode T) (vs : List T) : QNode T × Bool :=
  match c0, c1, c2, c3 with
  | .leaf v0, .leaf v1, .leaf v2, .leaf v3 =>
    if vs.length + v0.length + v1.length + v2.length + v3.length ≤ THRESHOLD then
      (.leaf (vs ++ v0 ++ v1 ++ v2 ++ v3), true)
    else (.node (.leaf v0) (.leaf v1) (.leaf v2) (.leaf v3) vs, false)
  | _, _, _, _ => (.node c0 c1 c2 c3 vs, false)

/-- `QNode::remove`.  Returns `none` when the code would hit the
`unreachable!("value should always be contained in one of the quadrants")`
panic, i.e. when a child's `remove` returns `false`; otherwise `some` of the
updated node together with the should-merge flag. -/
def QNode.remove [DecidableEq T] (n : QNode T) (bounds : Rect) (val : T) :
    Option (QNode T × Bool) :=
  match n with
  | .leaf vs => some (.leaf (remove_found_val vs val), true)
  | .node c0 c1 c2 c3 vs =>
    match find_quadrant bounds (as_quad_val val) with
    | some 0 =>
      match c0.remove (compute_bounds bounds 0) val with
      | none => none
      | some (c0', flag) => if flag then some (tryMergeNode c0' c1 c2 c3 vs) else none
    | some 1 =>
      match c1.remove (compute_bounds bounds 1) val with
      | none => none
      | some (c1', flag) => if flag then some (tryMergeNode c0 c1' c2 c3 vs) else none
    | some 2 =>
      match c2.remove (compute_bounds bounds 2) val with
      | none => none
      | some (c2', flag) => if flag then some (tryMergeNode c0 c1 c2' c3 vs) else none
    | some 3 =>
      match c3.remove (compute_bounds bounds 3) val with
      | none => none
      | some (c3', flag) => if flag then some (tryMergeNode c0 c1 c2 c3' vs) else none
    | none => some (.node c0 c1 c2 c3 (remove_found_val vs val), false)

/-- `QNode::clear`: clear own values, clear children recursively, then
`try_merge` when interior. -/
def QNode.clear : QNode T → QNode T
  | .leaf _ => .leaf []
  | .node c0 c1 c2 c3 _ => (tryMergeNode c0.clear c1.clear c2.clear c3.clear []).1

/-- `QNode::query`.  `none` models the `assert!` failure at entry; the value
collection is the filtered own values followed by the children visited in
order, a child being visited only when its sub-bounds overlap `query_bounds`
with non-empty intersection. -/
def QNode.query (n : QNode T) (quad_bounds query_bounds : Rect) : Option (List T) :=
  if (quad_bounds.intersect query_bounds).is_empty then none
  else
    match n with
    | .leaf vs => some (vs.filter fun v => (as_quad_val v).intersects (as_quad_val query_bounds))
    | .node c0 c1 c2 c3 vs =>
      (if (query_bounds.intersect (compute_bounds quad_bounds 0)).is_empty then some []
        else c0.query (compute_bounds quad_bounds 0) query_bounds).bind fun r0 =>
      (if (query_bounds.intersect (compute_bounds quad_bounds 1)).is_empty then some []
        else c1.query (compute_bounds quad_bounds 1) query_bounds).bind fun r1 =>
      (if (query_bounds.intersect (compute_bounds quad_bounds 2)).is_empty then some []
        else c2.query (compute_bounds quad_bounds 2) query_bounds).bind fun r2 =>
      (if (query_bounds.intersect (compute_bounds quad_bounds 3)).is_empty then some []
        else c3.query (compute_bounds quad_bounds 3) query_bounds).bind fun r3 =>
      some ((vs.filter fun v => (as_quad_val v).intersects (as_quad_val query_bounds))
        ++ r0 ++ r1 ++ r2 ++ r3)

/-- The pairs emitted by the double loop at the top of
`QNode::find_all_intersections`: each value paired against the strictly
earlier values, in iteration order. -/
def selfPairsAux (pre rest : List T) : List (T × T) :=
  match rest with
  | [] => []
  | a :: rest =>
    ((pre.filter fun b => (as_quad_val a).intersects (as_quad_val b)).map fun b => (a, b))
      ++ selfPairsAux (pre ++ [a]) rest

/-- Pairs among the values stored directly in one node. -/
def selfPairs (vs : List T) : List (T × T) := selfPairsAux [] vs

/-- `QNode::find_intersections_in_descendants`: pair `val` with every
intersecting value in the subtree, own values first then children in order. -/
def QNode.findInDesc (n : QNode T) (val : T) : List (T × T) :=
  match n with
  | .leaf vs =>
    (vs.filter fun other => (as_quad_val val).intersects (as_quad_val other)).map
      fun other => (val, other)
  | .node c0 c1 c2 c3 vs =>
    ((vs.filter fun other => (as_quad_val val).intersects (as_quad_val other)).map
      fun other => (val, other))
      ++ c0.findInDesc val ++ c1.findInDesc val ++ c2.findInDesc val ++ c3.findInDesc val

/-- `QNode::find_all_intersections`. -/
def QNode.findAll : QNode T → List (T × T)
  | .leaf vs => selfPairs vs
  | .node c0 c1 c2 c3 vs =>
    selfPairs vs
      ++ ((vs.map fun v => c0.findInDesc v).flatten ++ c0.findAll)
      ++ ((vs.map fun v => c1.findInDesc v).flatten ++ c1.findAll)
      ++ ((vs.map fun v => c2.findInDesc v).flatten ++ c2.findAll)
      ++ ((vs.map fun v => c3.findInDesc v).flatten ++ c3.findAll)

/-- The scan skipping the first element in `QNode::nearest`'s leaf case,
tracking the closest value and its (squared) distance.  The source compares
`f32` distances; on nonnegative reals `dist < dist'` iff `dist² < dist'²`. -/
def nearestFold (pos : Vec2) : T × ℚ → List T → T × ℚ
  | acc, [] => acc
  | (cv, cd), v :: rest =>
    let d := Vec2.dist2 pos (as_quad_val v).center
    if d < cd then nearestFold pos (v, d) rest else nearestFold pos (cv, cd) rest

/-- `QNode::nearest`.  Note the interior case recurses with `bounds`
unchanged, exactly as the source does. -/
def QNode.nearest (n : QNode T) (bounds : Rect) (pos : Vec2) : Option T :=
  match n with
  | .leaf [] => none
  | .leaf (v :: rest) =>
    some (nearestFold pos (v, Vec2.dist2 pos (as_quad_val v).center) rest).1
  | .node c0 c1 c2 c3 _ =>
    match find_quadrant bounds (as_quad_val pos) with
    | none => none
    | some 0 => c0.nearest bounds pos
    | some 1 => c1.nearest bounds pos
    | some 2 => c2.nearest bounds pos
    | some 3 => c3.nearest bounds pos

/-- The `Quadtree` container. -/
structure Quadtree (T : Type) where
  bounds : Rect
  root : QNode T
deriving Repr, DecidableEq

/-- `Quadtree::new`. -/
def Quadtree.new (bounds : Rect) : Quadtree T := ⟨bounds, .leaf []⟩

/-- `Quadtree::insert`. -/
def Quadtree.insert (t : Quadtree T) (val : T) : Quadtree T :=
  ⟨t.bounds, t.root.insert t.bounds 0 val⟩

/-- `Quadtree::insert_many`. -/
def Quadtree.insert_many (t : Quadtree T) (items : List T) : Quadtree T :=
  ⟨t.bounds, t.root.insert_many t.bounds 0 items⟩

/-- `Quadtree::remove`; `none` models the panic. -/
def Quadtree.remove [DecidableEq T] (t : Quadtree T) (val : T) : Option (Quadtree T) :=
  (t.root.remove t.bounds val).map fun p => ⟨t.bounds, p.1⟩

/-- `Quadtree::query`; `none` models the assertion failure. -/
def Quadtree.query (t : Quadtree T) (query_bounds : Rect) : Option (List T) :=
  t.root.query t.bounds query_bounds

/-- `Quadtree::find_all_intersections`. -/
def Quadtree.find_all_intersections (t : Quadtree T) : List (T × T) :=
  t.root.findAll

/-- `Quadtree::nearest`. -/
def Quadtree.nearest (t : Quadtree T) (pos : Vec2) : Option T :=
  t.root.nearest t.bounds pos

/-- `Quadtree::clear`. -/
def Quadtree.clear (t : Quadtree T) : Quadtree T := ⟨t.bounds, t.root.clear⟩

/-- Build a tree by inserting the values one at a time. -/
def buildTree (bounds : Rect) (vals : List T) : Quadtree T :=
  vals.foldl (fun t v => t.insert v) (Quadtree.new bounds)

end Exigra

namespace Exigra

/-! ## Basic lemmas about the geometry of `Rect.intersect` and `is_empty` -/

theorem intersect_is_empty_iff (a b : Rect) :
    (a.intersect b).is_empty = true ↔
      (min a.max.x b.max.x ≤ max a.min.x b.min.x ∨ min a.max.y b.max.y ≤ max a.min.y b.min.y) := by
  simp [Rect.intersect, Rect.is_empty, Vec2.vmin, Vec2.vmax, le_min_iff]

theorem intersect_is_empty_comm (a b : Rect) :
    (a.intersect b).is_empty = (b.intersect a).is_empty := by
  rw [Bool.eq_iff_iff, intersect_is_empty_iff, intersect_is_empty_iff,
    min_comm a.max.x b.max.x, max_comm a.min.x b.min.x,
    min_comm a.max.y b.max.y, max_comm a.min.y b.min.y]

theorem intersect_not_empty_iff (a b : Rect) :
    (a.intersect b).is_empty = false ↔
      (max a.min.x b.min.x < min a.max.x b.max.x ∧ max a.min.y b.min.y < min a.max.y b.max.y) := by
  rw [← Bool.not_eq_true, intersect_is_empty_iff]
  push_neg
  tauto

/-! ## `query` returns a result exactly when the entry assertion passes -/

variable {T : Type} [AsQuadVal T]

theorem QNode.query_eq_none_iff (n : QNode T) (qb region : Rect) :
    n.query qb region = none ↔ (qb.intersect region).is_empty = true := by
  induction n generalizing qb with
  | leaf vs =>
    rcases h : (qb.intersect region).is_empty with _ | _ <;> simp [QNode.query, h]
  | node c0 c1 c2 c3 vs ih0 ih1 ih2 ih3 =>
    rcases h : (qb.intersect region).is_empty with _ | _
    · simp only [QNode.query, h, Bool.false_eq_true, if_false]
      constructor
      · intro hc
        exfalso
        have get0 : ∀ b : Bool, ∀ c : QNode T, ∀ cb : Rect,
            (c.query cb region = none ↔ (cb.intersect region).is_empty = true) →
            (b = false → (region.intersect cb).is_empty = false) →
            ∃ l, (if b = true then some [] else c.query cb region) = some l := by
          intro b c cb hiff hb
          cases b
          · have hne : (cb.intersect region).is_empty = false := by
              rw [intersect_is_empty_comm]; exact hb rfl
            rcases hq : c.query cb region with _ | l
            · rw [hiff] at hq; rw [hq] at hne; exact absurd hne (by simp)
            · exact ⟨l, by simp [hq]⟩
          · exact ⟨[], rfl⟩
        obtain ⟨l0, h0⟩ := get0 _ c0 (compute_bounds qb 0) (ih0 _) (fun hb => hb)
        obtain ⟨l1, h1⟩ := get0 _ c1 (compute_bounds qb 1) (ih1 _) (fun hb => hb)
        obtain ⟨l2, h2⟩ := get0 _ c2 (compute_bounds qb 2) (ih2 _) (fun hb => hb)
        obtain ⟨l3, h3⟩ := get0 _ c3 (compute_bounds qb 3) (ih3 _) (fun hb => hb)
        rw [h0, h1, h2, h3] at hc
        simp at hc
      · intro hc
        exact absurd hc (by simp)
    · simp [QNode.query, h]

theorem Quadtree.query_none_iff (t : Quadtree T) (region : Rect) :
    t.query region = none ↔ (t.bounds.intersect region).is_empty = true :=
  QNode.query_eq_none_iff t.root t.bounds region

end Exigra

namespace Exigra

set_option maxRecDepth 100000

variable {T : Type} [AsQuadVal T]

/-! ## Concrete scenarios used by the claim theorems -/

/-- Tree bounds `(0,0)-(8,8)` used by the spec's scenarios. -/
def b8 : Rect := Rect.from_corners ⟨0, 0⟩ ⟨8, 8⟩

/-- Tree bounds `(0,0)-(64,64)` used for scenarios needing subdivision with
integer coordinates. -/
def b64 : Rect := Rect.from_corners ⟨0, 0⟩ ⟨64, 64⟩

/-- The spec's five scenario points, as zero-radius circles. -/
def c9pts5 : List Vec2 := [⟨1, 1⟩, ⟨7, 7⟩, ⟨3, 5⟩, ⟨13/2, 3/2⟩, ⟨4, 4⟩]

/-- The sixteen dense points with coordinates in `{1, 2, 3, 4}`. -/
def c9pts16 : List Vec2 :=
  [⟨1, 1⟩, ⟨1, 2⟩, ⟨1, 3⟩, ⟨1, 4⟩, ⟨2, 1⟩, ⟨2, 2⟩, ⟨2, 3⟩, ⟨2, 4⟩,
   ⟨3, 1⟩, ⟨3, 2⟩, ⟨3, 3⟩, ⟨3, 4⟩, ⟨4, 1⟩, ⟨4, 2⟩, ⟨4, 3⟩, ⟨4, 4⟩]

/-- The scenario tree after the first five points (batch-inserted, as in the
repository's own test). -/
def c9t5 : Quadtree Vec2 := (Quadtree.new b8).insert_many c9pts5

/-- The scenario tree after the sixteen further single inserts. -/
def c9t21 : Quadtree Vec2 := c9pts16.foldl (fun t v => t.insert v) c9t5

/-- Claim C9 (code_bug): with `THRESHOLD = 32` the scenario's 21 points never
exceed the leaf threshold, so after all 21 insertions the root is still a Leaf
holding all 21 values — the claim's (and the repository's own test
`quadtree_insert_remove_works`'s) expected split to an Interior root with an
empty value list does not happen.  The first half of the scenario (a Leaf with
5 values after five insertions) does hold. -/
theorem c9_threshold_scenario :
    c9t5.root.is_leaf = true ∧ c9t5.root.allVals.length = 5 ∧
    c9t21.root.is_leaf = true ∧ c9t21.root.allVals.length = 21 := by
  with_unfolding_all decide

/-- 32 zero-radius-circle points on the diagonal, all inside quadrant 0 of
`b64`. -/
def diagPts : List QuadVal := (List.range 32).map fun k => ⟨⟨(k : ℚ), (k : ℚ)⟩, .circle ⟨0⟩⟩

/-- A 33rd point inside quadrant 0; its insertion subdivides the root's
quadrant-0 child again, making that child interior. -/
def deepPt : QuadVal := ⟨⟨0, 1⟩, .circle ⟨0⟩⟩

/-- A tree, built by 33 single insertions, whose root is interior and whose
quadrant-0 child is again interior. -/
def deepTree : Quadtree QuadVal := buildTree b64 (diagPts ++ [deepPt])

/-- A small square straddling the center `(16,16)` of the quadrant-0 child's
bounds `(0,0)-(32,32)`, while fitting entirely inside quadrant 0 of `b64`. -/
def straddler : QuadVal := ⟨⟨16, 16⟩, .quad (Rectangle.new 2 2)⟩

/-- Claim C3 (code_bug): removing a value that is not present in the tree can
abort.  `deepTree` is reachable by 33 single inserts; `straddler` is not
stored in it.  `remove` descends into the interior quadrant-0 child, which
takes its overflow branch (no quadrant of its own bounds contains the
straddler) and returns `false`, so the parent hits
`unreachable!("value should always be contained in one of the quadrants")` —
modelled as `none` — instead of being a silent no-op. -/
theorem c3_remove_absent_panics :
    deepTree.root.is_leaf = false ∧
    (match deepTree.root with | .node c0 _ _ _ _ => c0.is_leaf | _ => true) = false ∧
    straddler ∉ deepTree.root.allVals ∧
    deepTree.remove straddler = none := by
  with_unfolding_all decide

/-- Claim C6 (code_bug): inserting a value and then removing that same value
can abort.  Inserting `straddler` into `deepTree` stores it in the overflow
list of the interior quadrant-0 child; the subsequent `remove` finds and
removes it there, but that branch returns `false`, so the parent hits the
`unreachable!` panic (modelled as `none`) instead of completing the
round-trip. -/
theorem c6_insert_remove_panics :
    ((deepTree.insert straddler).root.allVals.length = deepTree.root.allVals.length + 1) ∧
    (deepTree.insert straddler).remove straddler = none := by
  with_unfolding_all decide

/-- A tree over `b8` holding one point. -/
def c7T : Quadtree Vec2 := (Quadtree.new b8).insert ⟨1, 1⟩

/-- A query region sharing exactly the edge `x = 8` with the tree bounds. -/
def c7R : Rect := Rect.from_corners ⟨8, 0⟩ ⟨9, 8⟩

/-- Claim C7 counterexample: the region `c7R` does intersect the tree bounds
under the inclusive intersection predicate (they share an edge), yet
`query` aborts via its assertion (`none`) because the assertion tests the
bevy `Rect::intersect`-then-`is_empty` condition, which treats a touching
overlap as empty. -/
theorem c7_counterexample :
    rects_intersect b8 c7R = true ∧ c7T.query c7R = none := by
  with_unfolding_all decide

/-- Claim C7 (amended): `Quadtree::query` aborts via its assertion exactly
when the intersection rectangle of the query region and the tree bounds is
empty — that is, when they are disjoint or merely touch along an edge or
corner; it completes normally exactly when the overlap is non-degenerate. -/
theorem c7_query_abort_iff (t : Quadtree T) (region : Rect) :
    t.query region = none ↔ (t.bounds.intersect region).is_empty = true :=
  Quadtree.query_none_iff t region

/-- `QNode::nearest` as the spec's words describe it for claim C4: on an
interior node, recurse into the child whose quadrant — computed from the
node's own bounds — contains the query point, descending with that child's
computed sub-bounds. -/
def QNode.nearest_spec (n : QNode T) (bounds : Rect) (pos : Vec2) : Option T :=
  match n with
  | .leaf [] => none
  | .leaf (v :: rest) =>
    some (nearestFold pos (v, Vec2.dist2 pos (as_quad_val v).center) rest).1
  | .node c0 c1 c2 c3 _ =>
    match find_quadrant bounds (as_quad_val pos) with
    | none => none
    | some 0 => c0.nearest_spec (compute_bounds bounds 0) pos
    | some 1 => c1.nearest_spec (compute_bounds bounds 1) pos
    | some 2 => c2.nearest_spec (compute_bounds bounds 2) pos
    | some 3 => c3.nearest_spec (compute_bounds bounds 3) pos

/-- A value in the quadrant-0/quadrant-0 grandchild. -/
def c4a : Vec2 := ⟨1/2, 1/2⟩

/-- A value in the quadrant-0/quadrant-3 grandchild. -/
def c4b : Vec2 := ⟨1, 3⟩

/-- A two-level tree separating the two descent policies. -/
def c4t : QNode Vec2 :=
  .node (.node (.leaf [c4a]) (.leaf []) (.leaf []) (.leaf [c4b]) [])
    (.leaf []) (.leaf []) (.leaf []) []

/-- Claim C4 counterexample: at the second level the code computes the
quadrant from the unchanged original bounds (center `(4,4)`), not from the
child node's own bounds `(0,0)-(4,4)` (center `(2,2)`).  For the query point
`(1,3)` the code therefore descends into grandchild 0 and returns `c4a`,
whereas descending by each node's own bounds — as the claim states — reaches
grandchild 3 and returns `c4b`. -/
theorem c4_counterexample :
    c4t.nearest b8 ⟨1, 3⟩ = some c4a ∧
    c4t.nearest_spec b8 ⟨1, 3⟩ = some c4b ∧
    c4a ≠ c4b := by
  with_unfolding_all decide

/-- Claim C4 (amended): at every level of the recursion, `nearest` on an
interior node recurses into exactly the child whose quadrant is computed by
`find_quadrant` from the bounds argument it received — which is passed down
unchanged, so every level uses the original tree bounds and its center, not
the node's own sub-bounds — and it never descends into any other child. -/
theorem c4_nearest_fixed_bounds (c0 c1 c2 c3 : QNode T) (vs : List T) (bounds : Rect)
    (pos : Vec2) :
    (QNode.node c0 c1 c2 c3 vs).nearest bounds pos =
      match find_quadrant bounds (as_quad_val pos) with
      | none => none
      | some 0 => c0.nearest bounds pos
      | some 1 => c1.nearest bounds pos
      | some 2 => c2.nearest bounds pos
      | some 3 => c3.nearest bounds pos := rfl

end Exigra

namespace Exigra

variable {T : Type} [AsQuadVal T]

/-! ## Claim C10: `nearest` only ever returns values stored in leaf nodes -/

/-- `v` is stored in the value list of some leaf node of the tree. -/
def LeafStored (v : T) : QNode T → Prop
  | .leaf vs => v ∈ vs
  | .node c0 c1 c2 c3 _ => LeafStored v c0 ∨ LeafStored v c1 ∨ LeafStored v c2 ∨ LeafStored v c3

def decLeafStored [DecidableEq T] (v : T) : (n : QNode T) → Decidable (LeafStored v n)
  | .leaf vs => inferInstanceAs (Decidable (v ∈ vs))
  | .node c0 c1 c2 c3 _ =>
    letI := decLeafStored v c0
    letI := decLeafStored v c1
    letI := decLeafStored v c2
    letI := decLeafStored v c3
    inferInstanceAs (Decidable (LeafStored v c0 ∨ LeafStored v c1 ∨ LeafStored v c2 ∨
      LeafStored v c3))

instance [DecidableEq T] (v : T) (n : QNode T) : Decidable (LeafStored v n) :=
  decLeafStored v n

theorem nearestFold_mem (pos : Vec2) (cv : T) (cd : ℚ) (l : List T) :
    (nearestFold pos (cv, cd) l).1 = cv ∨ (nearestFold pos (cv, cd) l).1 ∈ l := by
  induction l generalizing cv cd with
  | nil => exact Or.inl rfl
  | cons v rest ih =>
    simp only [nearestFold]
    split
    · rcases ih v (Vec2.dist2 pos (as_quad_val v).center) with h | h
      · exact Or.inr (by simp [h])
      · exact Or.inr (List.mem_cons_of_mem _ h)
    · rcases ih cv cd with h | h
      · exact Or.inl h
      · exact Or.inr (List.mem_cons_of_mem _ h)

theorem nearest_leafStored (n : QNode T) (bounds : Rect) (pos : Vec2) (v : T)
    (h : n.nearest bounds pos = some v) : LeafStored v n := by
  induction n generalizing bounds with
  | leaf vs =>
    match vs, h with
    | v0 :: rest, h =>
      simp only [QNode.nearest, Option.some.injEq] at h
      subst h
      rcases nearestFold_mem pos v0 (Vec2.dist2 pos (as_quad_val v0).center) rest with h | h
      · simp [LeafStored, h]
      · exact List.mem_cons_of_mem _ h
  | node c0 c1 c2 c3 vs ih0 ih1 ih2 ih3 =>
    simp only [QNode.nearest] at h
    rcases hq : find_quadrant bounds (as_quad_val pos) with _ | i
    · rw [hq] at h; exact absurd h (by simp)
    · rw [hq] at h
      match i with
      | 0 => exact Or.inl (ih0 bounds h)
      | 1 => exact Or.inr (Or.inl (ih1 bounds h))
      | 2 => exact Or.inr (Or.inr (Or.inl (ih2 bounds h)))
      | 3 => exact Or.inr (Or.inr (Or.inr (ih3 bounds h)))

/-- A tree whose only value sits in the overflow list of the interior root. -/
def c10T : Quadtree QuadVal :=
  ⟨b8, .node (.leaf []) (.leaf []) (.leaf []) (.leaf [])
    [⟨⟨4, 4⟩, .quad (Rectangle.new 2 2)⟩]⟩

/-- Claim C10: on a tree with an interior root, `nearest` returns `none` or a
value stored in some leaf node's value list — a value held in an interior
node's overflow list is never returned — and consequently `nearest` can
return `none` on a non-empty tree (witnessed by `c10T`, whose single value is
an interior straddler). -/
theorem c10_nearest_leaf_only :
    (∀ (U : Type) [AsQuadVal U], ∀ (c0 c1 c2 c3 : QNode U) (vs : List U) (bounds : Rect)
      (pos : Vec2) (v : U),
      (QNode.node c0 c1 c2 c3 vs).nearest bounds pos = some v →
      LeafStored v (QNode.node c0 c1 c2 c3 vs)) ∧
    (c10T.root.allVals ≠ [] ∧ c10T.nearest ⟨1, 1⟩ = none) := by
  refine ⟨fun U _ c0 c1 c2 c3 vs bounds pos v h => nearest_leafStored _ bounds pos v h, ?_, ?_⟩
  · with_unfolding_all decide
  · with_unfolding_all decide

/-- A concrete interior tree and query for the witness. -/
def c10W : QNode Vec2 := .node (.leaf [⟨1, 1⟩]) (.leaf []) (.leaf []) (.leaf []) []

/-- Witness for claim C10: the first part applied at a concrete interior tree,
with its `nearest = some` hypothesis discharged by evaluation. -/
theorem c10_witness : LeafStored (⟨1, 1⟩ : Vec2) c10W :=
  c10_nearest_leaf_only.1 Vec2 (.leaf [⟨1, 1⟩]) (.leaf []) (.leaf []) (.leaf []) [] b8 ⟨1, 1⟩
    ⟨1, 1⟩ (by with_unfolding_all decide)

end Exigra

namespace Exigra

/-! ## Claim C8: boundary touching counts as intersecting -/

/-- Claim C8: the pairwise shape-intersection predicates are inclusive at the
boundary.  (1) Rectangles sharing exactly an edge intersect; (2) rectangles
sharing exactly a corner intersect; (3) circles whose center distance equals
`r1 + r2` intersect; (4) a rectangle whose closest point to a circle's center
lies at distance exactly `radius` intersects the circle; (5) capsules whose
end-cap circles touch at distance exactly `r1 + r2` intersect.  Distances are
phrased on squares, matching the embedding of the `f32` square root. -/
theorem c8_boundary_inclusive :
    (∀ (p1 p2 : Vec2) (r1 r2 : Rectangle),
      0 ≤ r1.half_size.x → 0 ≤ r2.half_size.x →
      p1.x + r1.half_size.x = p2.x - r2.half_size.x →
      p1.y - r1.half_size.y ≤ p2.y + r2.half_size.y →
      p2.y - r2.half_size.y ≤ p1.y + r1.half_size.y →
      rectangles_intersect p1 r1 p2 r2 = true) ∧
    (∀ (p1 p2 : Vec2) (r1 r2 : Rectangle),
      0 ≤ r1.half_size.x → 0 ≤ r2.half_size.x → 0 ≤ r1.half_size.y → 0 ≤ r2.half_size.y →
      p1.x + r1.half_size.x = p2.x - r2.half_size.x →
      p1.y + r1.half_size.y = p2.y - r2.half_size.y →
      rectangles_intersect p1 r1 p2 r2 = true) ∧
    (∀ (c1 c2 : Vec2) (r1 r2 : ℚ),
      0 ≤ r1 + r2 → Vec2.dist2 c1 c2 = (r1 + r2) ^ 2 →
      circles_intersect c1 r1 c2 r2 = true) ∧
    (∀ (rect_pos : Vec2) (rectangle : Rectangle) (c_center : Vec2) (c_radius : ℚ),
      0 ≤ c_radius →
      Vec2.dist2 (close_pt (Rect.from_center_half_size rect_pos rectangle.half_size) c_center)
          c_center = c_radius ^ 2 →
      rectangle_circle_intersect rect_pos rectangle c_center c_radius = true) ∧
    (∀ (c1 c2 : Vec2) (capsule1 capsule2 : Capsule2d),
      0 ≤ capsule1.radius + capsule2.radius →
      Vec2.dist2 (c1 + ⟨0, capsule1.half_length⟩) (c2 - ⟨0, capsule2.half_length⟩) =
        (capsule1.radius + capsule2.radius) ^ 2 →
      capsules_intersect c1 capsule1 c2 capsule2 = true) := by
  have circles : ∀ (c1 c2 : Vec2) (r1 r2 : ℚ),
      0 ≤ r1 + r2 → Vec2.dist2 c1 c2 = (r1 + r2) ^ 2 →
      circles_intersect c1 r1 c2 r2 = true := by
    intro c1 c2 r1 r2 h1 h2
    rw [circles_intersect, sqrtLe, decide_eq_true_iff]
    exact ⟨h1, le_of_eq h2⟩
  refine ⟨?_, ?_, circles, ?_, ?_⟩
  · intro p1 p2 r1 r2 hx1 hx2 he h3 h4
    rw [rectangles_intersect, rects_intersect, decide_eq_true_iff]
    simp only [Rect.from_center_half_size, Vec2.add_x, Vec2.add_y, Vec2.sub_x, Vec2.sub_y]
    refine ⟨⟨by linarith, by linarith⟩, by linarith, by linarith⟩
  · intro p1 p2 r1 r2 hx1 hx2 hy1 hy2 hex hey
    rw [rectangles_intersect, rects_intersect, decide_eq_true_iff]
    simp only [Rect.from_center_half_size, Vec2.add_x, Vec2.add_y, Vec2.sub_x, Vec2.sub_y]
    refine ⟨⟨by linarith, by linarith⟩, by linarith, by linarith⟩
  · intro rect_pos rectangle c_center c_radius h1 h2
    rw [rectangle_circle_intersect, sqrtLe, decide_eq_true_iff]
    exact ⟨h1, le_of_eq h2⟩
  · intro c1 c2 capsule1 capsule2 h1 h2
    have key := circles (c1 + ⟨0, capsule1.half_length⟩) (c2 - ⟨0, capsule2.half_length⟩)
      capsule1.radius capsule2.radius h1 h2
    simp only [capsules_intersect, Bool.or_eq_true]
    tauto

/-- Witness for claim C8: each of the five boundary families applied at a
concrete touching configuration. -/
theorem c8_witness :
    rectangles_intersect ⟨0, 0⟩ (Rectangle.new 2 2) ⟨2, 0⟩ (Rectangle.new 2 2) = true ∧
    rectangles_intersect ⟨0, 0⟩ (Rectangle.new 2 2) ⟨2, 2⟩ (Rectangle.new 2 2) = true ∧
    circles_intersect ⟨0, 0⟩ 2 ⟨3, 4⟩ 3 = true ∧
    rectangle_circle_intersect ⟨0, 0⟩ (Rectangle.new 2 2) ⟨3, 0⟩ 2 = true ∧
    capsules_intersect ⟨0, 0⟩ ⟨2, 1⟩ ⟨3, 6⟩ ⟨3, 1⟩ = true :=
  ⟨c8_boundary_inclusive.1 ⟨0, 0⟩ ⟨2, 0⟩ (Rectangle.new 2 2) (Rectangle.new 2 2)
      (by with_unfolding_all decide) (by with_unfolding_all decide)
      (by with_unfolding_all decide) (by with_unfolding_all decide)
      (by with_unfolding_all decide),
   c8_boundary_inclusive.2.1 ⟨0, 0⟩ ⟨2, 2⟩ (Rectangle.new 2 2) (Rectangle.new 2 2)
      (by with_unfolding_all decide) (by with_unfolding_all decide)
      (by with_unfolding_all decide) (by with_unfolding_all decide)
      (by with_unfolding_all decide) (by with_unfolding_all decide),
   c8_boundary_inclusive.2.2.1 ⟨0, 0⟩ ⟨3, 4⟩ 2 3 (by with_unfolding_all decide)
      (by with_unfolding_all decide),
   c8_boundary_inclusive.2.2.2.1 ⟨0, 0⟩ (Rectangle.new 2 2) ⟨3, 0⟩ 2
      (by with_unfolding_all decide) (by with_unfolding_all decide),
   c8_boundary_inclusive.2.2.2.2 ⟨0, 0⟩ ⟨3, 6⟩ ⟨2, 1⟩ ⟨3, 1⟩
      (by with_unfolding_all decide) (by with_unfolding_all decide)⟩

end Exigra

namespace Exigra

variable {T : Type} [AsQuadVal T]

/-! ## Well-formed shapes and `find_quadrant` characterizations -/

/-- The spec's shape invariant: radii, half-lengths and half-extents are
nonnegative. -/
def WFShape : Shape → Prop
  | .quad r => 0 ≤ r.half_size.x ∧ 0 ≤ r.half_size.y
  | .circle c => 0 ≤ c.radius
  | .capsule c => 0 ≤ c.radius ∧ 0 ≤ c.half_length

/-- A well-formed positioned shape. -/
def WFVal (q : QuadVal) : Prop := WFShape q.shape

instance : DecidablePred WFShape := fun s => by
  cases s <;> unfold WFShape <;> infer_instance

instance : DecidablePred WFVal := fun q => inferInstanceAs (Decidable (WFShape q.shape))

theorem WFVal.aabb_le {q : QuadVal} (h : WFVal q) :
    q.aabb.min.x ≤ q.aabb.max.x ∧ q.aabb.min.y ≤ q.aabb.max.y := by
  rcases q with ⟨pos, s⟩
  cases s with
  | quad r =>
    obtain ⟨h1, h2⟩ := h
    simp only [QuadVal.aabb, Rect.from_center_half_size, Vec2.add_x, Vec2.add_y, Vec2.sub_x,
      Vec2.sub_y]
    constructor <;> linarith
  | circle c =>
    have h1 : 0 ≤ c.radius := h
    simp only [QuadVal.aabb, Rect.from_center_half_size, Vec2.add_x, Vec2.add_y, Vec2.sub_x,
      Vec2.sub_y]
    constructor <;> linarith
  | capsule c =>
    obtain ⟨h1, h2⟩ := h
    simp only [QuadVal.aabb, Rect.from_center_half_size, Vec2.add_x, Vec2.add_y, Vec2.sub_x,
      Vec2.sub_y]
    constructor <;> linarith

theorem contains_iff (r : Rect) (p : Vec2) :
    r.contains p = true ↔ (r.min.x ≤ p.x ∧ p.x ≤ r.max.x ∧ r.min.y ≤ p.y ∧ p.y ≤ r.max.y) := by
  simp [Rect.contains]

theorem is_contained_by_iff (q : QuadVal) (b : Rect) :
    q.is_contained_by b = true ↔
      (b.min.x ≤ q.aabb.min.x ∧ q.aabb.min.x ≤ b.max.x ∧
       b.min.y ≤ q.aabb.min.y ∧ q.aabb.min.y ≤ b.max.y ∧
       b.min.x ≤ q.aabb.max.x ∧ q.aabb.max.x ≤ b.max.x ∧
       b.min.y ≤ q.aabb.max.y ∧ q.aabb.max.y ≤ b.max.y) := by
  simp only [QuadVal.is_contained_by, Bool.and_eq_true, contains_iff]
  tauto

theorem find_quadrant_eq_some0 (b : Rect) (q : QuadVal) :
    find_quadrant b q = some 0 ↔
      q.is_contained_by b = true ∧ q.aabb.max.x < b.center.x ∧ q.aabb.max.y < b.center.y := by
  simp only [find_quadrant]
  split_ifs <;> simp_all

theorem find_quadrant_eq_some1 (b : Rect) (q : QuadVal) :
    find_quadrant b q = some 1 ↔
      q.is_contained_by b = true ∧ ¬ q.aabb.max.x < b.center.x ∧ b.center.x ≤ q.aabb.min.x ∧
        q.aabb.max.y < b.center.y := by
  simp only [find_quadrant]
  split_ifs <;> simp_all

theorem find_quadrant_eq_some2 (b : Rect) (q : QuadVal) :
    find_quadrant b q = some 2 ↔
      q.is_contained_by b = true ∧ ¬ q.aabb.max.x < b.center.x ∧ b.center.x ≤ q.aabb.min.x ∧
        ¬ q.aabb.max.y < b.center.y ∧ b.center.y ≤ q.aabb.min.y := by
  simp only [find_quadrant]
  split_ifs <;> simp_all

theorem find_quadrant_eq_some3 (b : Rect) (q : QuadVal) :
    find_quadrant b q = some 3 ↔
      q.is_contained_by b = true ∧ q.aabb.max.x < b.center.x ∧ ¬ q.aabb.max.y < b.center.y ∧
        b.center.y ≤ q.aabb.min.y := by
  simp only [find_quadrant]
  split_ifs <;> simp_all

end Exigra

namespace Exigra

variable {T : Type} [AsQuadVal T]

theorem find_quadrant_contained0 (b : Rect) (q : QuadVal)
    (hqx : q.aabb.min.x ≤ q.aabb.max.x) (hqy : q.aabb.min.y ≤ q.aabb.max.y)
    (h : find_quadrant b q = some 0) : q.is_contained_by (compute_bounds b 0) = true := by
  rw [find_quadrant_eq_some0] at h
  obtain ⟨hc, h1, h2⟩ := h
  rw [is_contained_by_iff] at hc
  obtain ⟨c1, c2, c3, c4, c5, c6, c7, c8⟩ := hc
  rw [is_contained_by_iff]
  simp only [Rect.center] at h1 h2
  simp only [compute_bounds, Rect.from_corners, Vec2.vmin, Vec2.vmax, Rect.half_size,
    Vec2.add_x, Vec2.add_y]
  refine ⟨?_, ?_, ?_, ?_, ?_, ?_, ?_, ?_⟩ <;>
    simp only [le_min_iff, min_le_iff, le_max_iff, max_le_iff] <;>
    first
      | linarith
      | (constructor <;> linarith)
      | (left; linarith)
      | (right; linarith)

theorem find_quadrant_contained1 (b : Rect) (q : QuadVal)
    (hqx : q.aabb.min.x ≤ q.aabb.max.x) (hqy : q.aabb.min.y ≤ q.aabb.max.y)
    (h : find_quadrant b q = some 1) : q.is_contained_by (compute_bounds b 1) = true := by
  rw [find_quadrant_eq_some1] at h
  obtain ⟨hc, h0, h1, h2⟩ := h
  rw [is_contained_by_iff] at hc
  obtain ⟨c1, c2, c3, c4, c5, c6, c7, c8⟩ := hc
  rw [is_contained_by_iff]
  simp only [Rect.center] at h0 h1 h2
  simp only [compute_bounds, Rect.from_corners, Vec2.vmin, Vec2.vmax, Rect.half_size,
    Vec2.add_x, Vec2.add_y]
  refine ⟨?_, ?_, ?_, ?_, ?_, ?_, ?_, ?_⟩ <;>
    simp only [le_min_iff, min_le_iff, le_max_iff, max_le_iff] <;>
    first
      | linarith
      | (constructor <;> linarith)
      | (left; linarith)
      | (right; linarith)

theorem find_quadrant_contained2 (b : Rect) (q : QuadVal)
    (hqx : q.aabb.min.x ≤ q.aabb.max.x) (hqy : q.aabb.min.y ≤ q.aabb.max.y)
    (h : find_quadrant b q = some 2) : q.is_contained_by (compute_bounds b 2) = true := by
  rw [find_quadrant_eq_some2] at h
  obtain ⟨hc, h0, h1, h2, h3⟩ := h
  rw [is_contained_by_iff] at hc
  obtain ⟨c1, c2, c3, c4, c5, c6, c7, c8⟩ := hc
  rw [is_contained_by_iff]
  simp only [Rect.center] at h0 h1 h2 h3
  simp only [compute_bounds, Rect.from_corners, Vec2.vmin, Vec2.vmax, Rect.half_size,
    Vec2.add_x, Vec2.add_y]
  refine ⟨?_, ?_, ?_, ?_, ?_, ?_, ?_, ?_⟩ <;>
    simp only [le_min_iff, min_le_iff, le_max_iff, max_le_iff] <;>
    first
      | linarith
      | (constructor <;> linarith)
      | (left; linarith)
      | (right; linarith)

theorem find_quadrant_contained3 (b : Rect) (q : QuadVal)
    (hqx : q.aabb.min.x ≤ q.aabb.max.x) (hqy : q.aabb.min.y ≤ q.aabb.max.y)
    (h : find_quadrant b q = some 3) : q.is_contained_by (compute_bounds b 3) = true := by
  rw [find_quadrant_eq_some3] at h
  obtain ⟨hc, h1, h2, h3⟩ := h
  rw [is_contained_by_iff] at hc
  obtain ⟨c1, c2, c3, c4, c5, c6, c7, c8⟩ := hc
  rw [is_contained_by_iff]
  simp only [Rect.center] at h1 h2 h3
  simp only [compute_bounds, Rect.from_corners, Vec2.vmin, Vec2.vmax, Rect.half_size,
    Vec2.add_x, Vec2.add_y]
  refine ⟨?_, ?_, ?_, ?_, ?_, ?_, ?_, ?_⟩ <;>
    simp only [le_min_iff, min_le_iff, le_max_iff, max_le_iff] <;>
    first
      | linarith
      | (constructor <;> linarith)
      | (left; linarith)
      | (right; linarith)

end Exigra

namespace Exigra

variable {T : Type} [AsQuadVal T]

/-! ## The placement invariant maintained by the tree operations -/

/-- Every value stored in the subtree of child `i` was assigned quadrant `i`
of this node's bounds by `find_quadrant`, recursively at every level. -/
def Inv (b : Rect) : QNode T → Prop
  | .leaf _ => True
  | .node c0 c1 c2 c3 _ =>
    ((∀ x ∈ c0.allVals, find_quadrant b (as_quad_val x) = some 0) ∧
      Inv (compute_bounds b 0) c0) ∧
    ((∀ x ∈ c1.allVals, find_quadrant b (as_quad_val x) = some 1) ∧
      Inv (compute_bounds b 1) c1) ∧
    ((∀ x ∈ c2.allVals, find_quadrant b (as_quad_val x) = some 2) ∧
      Inv (compute_bounds b 2) c2) ∧
    ((∀ x ∈ c3.allVals, find_quadrant b (as_quad_val x) = some 3) ∧
      Inv (compute_bounds b 3) c3)

theorem perm_cons_into (v : T) (L X : List T) : (v :: (L ++ X)).Perm (L ++ (v :: X)) :=
  List.perm_middle.symm

theorem filter_five_perm (bounds : Rect) (vs : List T) :
    vs.Perm
      ((vs.filter fun it => find_quadrant bounds (as_quad_val it) = some 0) ++
       ((vs.filter fun it => find_quadrant bounds (as_quad_val it) = some 1) ++
        ((vs.filter fun it => find_quadrant bounds (as_quad_val it) = some 2) ++
         ((vs.filter fun it => find_quadrant bounds (as_quad_val it) = some 3) ++
          (vs.filter fun it => find_quadrant bounds (as_quad_val it) = none))))) := by
  induction vs with
  | nil => simp
  | cons v tl ih =>
    have step : ∀ o' : Option (Fin 4),
        ((v :: tl).filter fun it => find_quadrant bounds (as_quad_val it) = o') =
          if find_quadrant bounds (as_quad_val v) = o' then
            v :: (tl.filter fun it => find_quadrant bounds (as_quad_val it) = o')
          else tl.filter fun it => find_quadrant bounds (as_quad_val it) = o' := by
      intro o'
      by_cases hv : find_quadrant bounds (as_quad_val v) = o' <;> simp [List.filter_cons, hv]
    rcases hv : find_quadrant bounds (as_quad_val v) with _ | i
    · rw [step (some 0), step (some 1), step (some 2), step (some 3), step none, hv]
      rw [if_neg (by simp), if_neg (by simp), if_neg (by simp), if_neg (by simp), if_pos rfl]
      refine (ih.cons v).trans ?_
      refine (perm_cons_into v _ _).trans (List.Perm.append_left _ ?_)
      refine (perm_cons_into v _ _).trans (List.Perm.append_left _ ?_)
      refine (perm_cons_into v _ _).trans (List.Perm.append_left _ ?_)
      exact perm_cons_into v _ _
    · match i with
      | 0 =>
        rw [step (some 0), step (some 1), step (some 2), step (some 3), step none, hv]
        rw [if_pos rfl, if_neg (by simp), if_neg (by simp), if_neg (by simp), if_neg (by simp)]
        exact ih.cons v
      | 1 =>
        rw [step (some 0), step (some 1), step (some 2), step (some 3), step none, hv]
        rw [if_neg (by simp), if_pos rfl, if_neg (by simp), if_neg (by simp), if_neg (by simp)]
        refine (ih.cons v).trans ?_
        exact perm_cons_into v _ _
      | 2 =>
        rw [step (some 0), step (some 1), step (some 2), step (some 3), step none, hv]
        rw [if_neg (by simp), if_neg (by simp), if_pos rfl, if_neg (by simp), if_neg (by simp)]
        refine (ih.cons v).trans ?_
        refine (perm_cons_into v _ _).trans (List.Perm.append_left _ ?_)
        exact perm_cons_into v _ _
      | 3 =>
        rw [step (some 0), step (some 1), step (some 2), step (some 3), step none, hv]
        rw [if_neg (by simp), if_neg (by simp), if_neg (by simp), if_pos rfl, if_neg (by simp)]
        refine (ih.cons v).trans ?_
        refine (perm_cons_into v _ _).trans (List.Perm.append_left _ ?_)
        refine (perm_cons_into v _ _).trans (List.Perm.append_left _ ?_)
        exact perm_cons_into v _ _

theorem allVals_subdivideLeaf (bounds : Rect) (vs : List T) :
    (subdivideLeaf bounds vs).allVals.Perm vs := by
  unfold subdivideLeaf group_by_quadrant
  simp only [QNode.allVals, List.append_assoc]
  refine List.Perm.trans ?_ (filter_five_perm bounds vs).symm
  simpa [List.append_assoc] using
    @List.perm_append_comm T (vs.filter fun it => find_quadrant bounds (as_quad_val it) = none)
      ((vs.filter fun it => find_quadrant bounds (as_quad_val it) = some 0) ++
        ((vs.filter fun it => find_quadrant bounds (as_quad_val it) = some 1) ++
          ((vs.filter fun it => find_quadrant bounds (as_quad_val it) = some 2) ++
            (vs.filter fun it => find_quadrant bounds (as_quad_val it) = some 3))))

end Exigra

namespace Exigra

variable {T : Type} [AsQuadVal T]

theorem subdivideLeaf_eq (bounds : Rect) (vs g0 g1 g2 g3 keep : List T)
    (hg : group_by_quadrant bounds vs = (g0, g1, g2, g3, keep)) :
    subdivideLeaf bounds vs = .node (.leaf g0) (.leaf g1) (.leaf g2) (.leaf g3) keep := by
  unfold subdivideLeaf
  rw [hg]

theorem allVals_insert_perm (n : QNode T) (bounds : Rect) (depth : Nat) (val : T) :
    (n.insert bounds depth val).allVals.Perm (val :: n.allVals) := by
  induction n, bounds, depth, val using QNode.insert.induct with
  | case1 bounds depth val c0 c1 c2 c3 vs hq ih =>
    rw [QNode.insert.eq_def]
    simp only [hq, QNode.allVals]
    exact ((((List.Perm.append_left vs ih).trans List.perm_middle).append_right
      _).append_right _).append_right _
  | case2 bounds depth val c0 c1 c2 c3 vs hq ih =>
    rw [QNode.insert.eq_def]
    simp only [hq, QNode.allVals]
    exact (((List.Perm.append_left _ ih).trans List.perm_middle).append_right _).append_right _
  | case3 bounds depth val c0 c1 c2 c3 vs hq ih =>
    rw [QNode.insert.eq_def]
    simp only [hq, QNode.allVals]
    exact ((List.Perm.append_left _ ih).trans List.perm_middle).append_right _
  | case4 bounds depth val c0 c1 c2 c3 vs hq ih =>
    rw [QNode.insert.eq_def]
    simp only [hq, QNode.allVals]
    exact (List.Perm.append_left _ ih).trans List.perm_middle
  | case5 bounds depth val c0 c1 c2 c3 vs hq =>
    rw [QNode.insert.eq_def]
    simp only [hq, QNode.allVals]
    exact ((((List.perm_append_singleton _ _).append_right _).append_right _).append_right
      _).append_right _
  | case6 bounds depth val vs hcond =>
    rw [QNode.insert.eq_def]
    simp only [dif_pos hcond, QNode.allVals]
    exact List.perm_append_singleton _ _
  | case7 bounds depth val vs hcond g0 g1 g2 g3 keep hg hq ih =>
    rw [QNode.insert.eq_def]
    simp only [dif_neg hcond, hg, hq, QNode.allVals]
    refine List.Perm.trans (((((List.Perm.append_left keep ih).trans
      List.perm_middle).append_right _).append_right _).append_right _) ?_
    refine List.Perm.cons val ?_
    have hs := allVals_subdivideLeaf bounds vs
    rw [subdivideLeaf_eq bounds vs g0 g1 g2 g3 keep hg] at hs
    simpa [QNode.allVals] using hs
  | case8 bounds depth val vs hcond g0 g1 g2 g3 keep hg hq ih =>
    rw [QNode.insert.eq_def]
    simp only [dif_neg hcond, hg, hq, QNode.allVals]
    refine List.Perm.trans ((((List.Perm.append_left _ ih).trans
      List.perm_middle).append_right _).append_right _) ?_
    refine List.Perm.cons val ?_
    have hs := allVals_subdivideLeaf bounds vs
    rw [subdivideLeaf_eq bounds vs g0 g1 g2 g3 keep hg] at hs
    simpa [QNode.allVals] using hs
  | case9 bounds depth val vs hcond g0 g1 g2 g3 keep hg hq ih =>
    rw [QNode.insert.eq_def]
    simp only [dif_neg hcond, hg, hq, QNode.allVals]
    refine List.Perm.trans (((List.Perm.append_left _ ih).trans
      List.perm_middle).append_right _) ?_
    refine List.Perm.cons val ?_
    have hs := allVals_subdivideLeaf bounds vs
    rw [subdivideLeaf_eq bounds vs g0 g1 g2 g3 keep hg] at hs
    simpa [QNode.allVals] using hs
  | case10 bounds depth val vs hcond g0 g1 g2 g3 keep hg hq ih =>
    rw [QNode.insert.eq_def]
    simp only [dif_neg hcond, hg, hq, QNode.allVals]
    refine List.Perm.trans ((List.Perm.append_left _ ih).trans List.perm_middle) ?_
    refine List.Perm.cons val ?_
    have hs := allVals_subdivideLeaf bounds vs
    rw [subdivideLeaf_eq bounds vs g0 g1 g2 g3 keep hg] at hs
    simpa [QNode.allVals] using hs
  | case11 bounds depth val vs hcond g0 g1 g2 g3 keep hg hq =>
    rw [QNode.insert.eq_def]
    simp only [dif_neg hcond, hg, hq, QNode.allVals]
    refine List.Perm.trans (((((List.perm_append_singleton _ _).append_right _).append_right
      _).append_right _).append_right _) ?_
    refine List.Perm.cons val ?_
    have hs := allVals_subdivideLeaf bounds vs
    rw [subdivideLeaf_eq bounds vs g0 g1 g2 g3 keep hg] at hs
    simpa [QNode.allVals] using hs

theorem mem_allVals_insert (n : QNode T) (bounds : Rect) (depth : Nat) (val x : T) :
    x ∈ (n.insert bounds depth val).allVals ↔ x = val ∨ x ∈ n.allVals := by
  rw [(allVals_insert_perm n bounds depth val).mem_iff, List.mem_cons]

end Exigra

namespace Exigra

variable {T : Type} [AsQuadVal T]

theorem mem_group_filter {bounds : Rect} {vs : List T} {o : Option (Fin 4)} {x : T}
    (hx : x ∈ vs.filter fun it => find_quadrant bounds (as_quad_val it) = o) :
    find_quadrant bounds (as_quad_val x) = o := by
  have := List.of_mem_filter hx
  simpa using this

theorem Inv_insert (n : QNode T) (bounds : Rect) (depth : Nat) (val : T)
    (hInv : Inv bounds n) : Inv bounds (n.insert bounds depth val) := by
  induction n, bounds, depth, val using QNode.insert.induct with
  | case1 bounds depth val c0 c1 c2 c3 vs hq ih =>
    rw [QNode.insert.eq_def]
    simp only [hq]
    simp only [Inv] at hInv ⊢
    obtain ⟨⟨h0m, h0i⟩, rest⟩ := hInv
    refine ⟨⟨?_, ih h0i⟩, rest⟩
    intro x hx
    rcases (mem_allVals_insert _ _ _ _ _).mp hx with rfl | hx
    · exact hq
    · exact h0m x hx
  | case2 bounds depth val c0 c1 c2 c3 vs hq ih =>
    rw [QNode.insert.eq_def]
    simp only [hq]
    simp only [Inv] at hInv ⊢
    obtain ⟨h0, ⟨h1m, h1i⟩, rest⟩ := hInv
    refine ⟨h0, ⟨?_, ih h1i⟩, rest⟩
    intro x hx
    rcases (mem_allVals_insert _ _ _ _ _).mp hx with rfl | hx
    · exact hq
    · exact h1m x hx
  | case3 bounds depth val c0 c1 c2 c3 vs hq ih =>
    rw [QNode.insert.eq_def]
    simp only [hq]
    simp only [Inv] at hInv ⊢
    obtain ⟨h0, h1, ⟨h2m, h2i⟩, rest⟩ := hInv
    refine ⟨h0, h1, ⟨?_, ih h2i⟩, rest⟩
    intro x hx
    rcases (mem_allVals_insert _ _ _ _ _).mp hx with rfl | hx
    · exact hq
    · exact h2m x hx
  | case4 bounds depth val c0 c1 c2 c3 vs hq ih =>
    rw [QNode.insert.eq_def]
    simp only [hq]
    simp only [Inv] at hInv ⊢
    obtain ⟨h0, h1, h2, ⟨h3m, h3i⟩⟩ := hInv
    refine ⟨h0, h1, h2, ?_, ih h3i⟩
    intro x hx
    rcases (mem_allVals_insert _ _ _ _ _).mp hx with rfl | hx
    · exact hq
    · exact h3m x hx
  | case5 bounds depth val c0 c1 c2 c3 vs hq =>
    rw [QNode.insert.eq_def]
    simp only [hq]
    simpa only [Inv] using hInv
  | case6 bounds depth val vs hcond =>
    rw [QNode.insert.eq_def]
    simp only [dif_pos hcond]
    trivial
  | case7 bounds depth val vs hcond g0 g1 g2 g3 keep hg hq ih =>
    rw [QNode.insert.eq_def]
    simp only [dif_neg hcond, hg, hq]
    simp only [group_by_quadrant, Prod.mk.injEq] at hg
    obtain ⟨hg0, hg1, hg2, hg3, hgk⟩ := hg
    simp only [Inv, QNode.allVals]
    refine ⟨⟨?_, ih trivial⟩, ⟨?_, trivial⟩, ⟨?_, trivial⟩, ⟨?_, trivial⟩⟩
    · intro x hx
      rcases (mem_allVals_insert _ _ _ _ _).mp hx with rfl | hx
      · exact hq
      · exact mem_group_filter (hg0 ▸ hx)
    · intro x hx
      exact mem_group_filter (hg1 ▸ hx)
    · intro x hx
      exact mem_group_filter (hg2 ▸ hx)
    · intro x hx
      exact mem_group_filter (hg3 ▸ hx)
  | case8 bounds depth val vs hcond g0 g1 g2 g3 keep hg hq ih =>
    rw [QNode.insert.eq_def]
    simp only [dif_neg hcond, hg, hq]
    simp only [group_by_quadrant, Prod.mk.injEq] at hg
    obtain ⟨hg0, hg1, hg2, hg3, hgk⟩ := hg
    simp only [Inv, QNode.allVals]
    refine ⟨⟨?_, trivial⟩, ⟨?_, ih trivial⟩, ⟨?_, trivial⟩, ⟨?_, trivial⟩⟩
    · intro x hx
      exact mem_group_filter (hg0 ▸ hx)
    · intro x hx
      rcases (mem_allVals_insert _ _ _ _ _).mp hx with rfl | hx
      · exact hq
      · exact mem_group_filter (hg1 ▸ hx)
    · intro x hx
      exact mem_group_filter (hg2 ▸ hx)
    · intro x hx
      exact mem_group_filter (hg3 ▸ hx)
  | case9 bounds depth val vs hcond g0 g1 g2 g3 keep hg hq ih =>
    rw [QNode.insert.eq_def]
    simp only [dif_neg hcond, hg, hq]
    simp only [group_by_quadrant, Prod.mk.injEq] at hg
    obtain ⟨hg0, hg1, hg2, hg3, hgk⟩ := hg
    simp only [Inv, QNode.allVals]
    refine ⟨⟨?_, trivial⟩, ⟨?_, trivial⟩, ⟨?_, ih trivial⟩, ⟨?_, trivial⟩⟩
    · intro x hx
      exact mem_group_filter (hg0 ▸ hx)
    · intro x hx
      exact mem_group_filter (hg1 ▸ hx)
    · intro x hx
      rcases (mem_allVals_insert _ _ _ _ _).mp hx with rfl | hx
      · exact hq
      · exact mem_group_filter (hg2 ▸ hx)
    · intro x hx
      exact mem_group_filter (hg3 ▸ hx)
  | case10 bounds depth val vs hcond g0 g1 g2 g3 keep hg hq ih =>
    rw [QNode.insert.eq_def]
    simp only [dif_neg hcond, hg, hq]
    simp only [group_by_quadrant, Prod.mk.injEq] at hg
    obtain ⟨hg0, hg1, hg2, hg3, hgk⟩ := hg
    simp only [Inv, QNode.allVals]
    refine ⟨⟨?_, trivial⟩, ⟨?_, trivial⟩, ⟨?_, trivial⟩, ⟨?_, ih trivial⟩⟩
    · intro x hx
      exact mem_group_filter (hg0 ▸ hx)
    · intro x hx
      exact mem_group_filter (hg1 ▸ hx)
    · intro x hx
      exact mem_group_filter (hg2 ▸ hx)
    · intro x hx
      rcases (mem_allVals_insert _ _ _ _ _).mp hx with rfl | hx
      · exact hq
      · exact mem_group_filter (hg3 ▸ hx)
  | case11 bounds depth val vs hcond g0 g1 g2 g3 keep hg hq =>
    rw [QNode.insert.eq_def]
    simp only [dif_neg hcond, hg, hq]
    simp only [group_by_quadrant, Prod.mk.injEq] at hg
    obtain ⟨hg0, hg1, hg2, hg3, hgk⟩ := hg
    simp only [Inv, QNode.allVals]
    refine ⟨⟨?_, trivial⟩, ⟨?_, trivial⟩, ⟨?_, trivial⟩, ⟨?_, trivial⟩⟩
    · intro x hx
      exact mem_group_filter (hg0 ▸ hx)
    · intro x hx
      exact mem_group_filter (hg1 ▸ hx)
    · intro x hx
      exact mem_group_filter (hg2 ▸ hx)
    · intro x hx
      exact mem_group_filter (hg3 ▸ hx)

end Exigra

namespace Exigra

variable {T : Type} [AsQuadVal T]

theorem perm_of_multiset_eq {l₁ l₂ : List T} (h : (l₁ : Multiset T) = (l₂ : Multiset T)) :
    l₁.Perm l₂ := Multiset.coe_eq_coe.mp h

theorem group_parts_eq {bounds : Rect} {items g0 g1 g2 g3 keep : List T}
    (hg : group_by_quadrant bounds items = (g0, g1, g2, g3, keep)) :
    g0 = (items.filter fun it => find_quadrant bounds (as_quad_val it) = some 0) ∧
    g1 = (items.filter fun it => find_quadrant bounds (as_quad_val it) = some 1) ∧
    g2 = (items.filter fun it => find_quadrant bounds (as_quad_val it) = some 2) ∧
    g3 = (items.filter fun it => find_quadrant bounds (as_quad_val it) = some 3) ∧
    keep = (items.filter fun it => find_quadrant bounds (as_quad_val it) = none) := by
  simp only [group_by_quadrant, Prod.mk.injEq] at hg
  obtain ⟨h0, h1, h2, h3, h4⟩ := hg
  exact ⟨h0.symm, h1.symm, h2.symm, h3.symm, h4.symm⟩

theorem group_perm {bounds : Rect} {items g0 g1 g2 g3 keep : List T}
    (hg : group_by_quadrant bounds items = (g0, g1, g2, g3, keep)) :
    items.Perm (g0 ++ (g1 ++ (g2 ++ (g3 ++ keep)))) := by
  obtain ⟨h0, h1, h2, h3, h4⟩ := group_parts_eq hg
  subst h0 h1 h2 h3 h4
  exact filter_five_perm bounds items

theorem allVals_insert_many_perm (n : QNode T) (bounds : Rect) (depth : Nat) (items : List T) :
    (n.insert_many bounds depth items).allVals.Perm (items ++ n.allVals) := by
  induction n, bounds, depth, items using QNode.insert_many.induct with
  | case1 bounds depth items c0 c1 c2 c3 vs h0 h1 h2 h3 hkeep hg ih0 ih1 ih2 ih3 =>
    obtain ⟨e0, e1, e2, e3, ek⟩ := group_parts_eq hg
    rw [QNode.insert_many.eq_def]
    simp only [QNode.allVals]
    rw [← e0, ← e1, ← e2, ← e3, ← ek]
    have p0 : (if h0.isEmpty then c0
        else c0.insert_many (compute_bounds bounds 0) (depth + 1) h0).allVals.Perm
        (h0 ++ c0.allVals) := by
      rcases hh : h0.isEmpty with _ | _
      · simpa [hh] using ih0
      · simp [hh, List.isEmpty_iff.mp hh]
    have p1 : (if h1.isEmpty then c1
        else c1.insert_many (compute_bounds bounds 1) (depth + 1) h1).allVals.Perm
        (h1 ++ c1.allVals) := by
      rcases hh : h1.isEmpty with _ | _
      · simpa [hh] using ih1
      · simp [hh, List.isEmpty_iff.mp hh]
    have p2 : (if h2.isEmpty then c2
        else c2.insert_many (compute_bounds bounds 2) (depth + 1) h2).allVals.Perm
        (h2 ++ c2.allVals) := by
      rcases hh : h2.isEmpty with _ | _
      · simpa [hh] using ih2
      · simp [hh, List.isEmpty_iff.mp hh]
    have p3 : (if h3.isEmpty then c3
        else c3.insert_many (compute_bounds bounds 3) (depth + 1) h3).allVals.Perm
        (h3 ++ c3.allVals) := by
      rcases hh : h3.isEmpty with _ | _
      · simpa [hh] using ih3
      · simp [hh, List.isEmpty_iff.mp hh]
    refine (((((List.Perm.refl (vs ++ hkeep)).append p0).append p1).append p2).append
      p3).trans ?_
    apply perm_of_multiset_eq
    have hi := Multiset.coe_eq_coe.mpr (group_perm hg)
    simp only [← Multiset.coe_add] at hi ⊢
    rw [hi]
    abel
  | case2 bounds depth items vs hcond =>
    rw [QNode.insert_many.eq_def]
    simp only [dif_pos hcond, QNode.allVals]
    exact List.perm_append_comm
  | case3 bounds depth items vs hcond g0 g1 g2 g3 keep h0 h1 h2 h3 hkeep hgi hgv ih0 ih1 ih2 ih3 =>
    rw [QNode.insert_many.eq_def]
    simp only [dif_neg hcond, QNode.allVals]
    simp only [hgi, hgv]
    have p0 : (if h0.isEmpty then QNode.leaf g0
        else (QNode.leaf g0).insert_many (compute_bounds bounds 0) (depth + 1) h0).allVals.Perm
        (h0 ++ g0) := by
      rcases hh : h0.isEmpty with _ | _
      · simpa [hh, QNode.allVals] using ih0
      · simp [hh, List.isEmpty_iff.mp hh, QNode.allVals]
    have p1 : (if h1.isEmpty then QNode.leaf g1
        else (QNode.leaf g1).insert_many (compute_bounds bounds 1) (depth + 1) h1).allVals.Perm
        (h1 ++ g1) := by
      rcases hh : h1.isEmpty with _ | _
      · simpa [hh, QNode.allVals] using ih1
      · simp [hh, List.isEmpty_iff.mp hh, QNode.allVals]
    have p2 : (if h2.isEmpty then QNode.leaf g2
        else (QNode.leaf g2).insert_many (compute_bounds bounds 2) (depth + 1) h2).allVals.Perm
        (h2 ++ g2) := by
      rcases hh : h2.isEmpty with _ | _
      · simpa [hh, QNode.allVals] using ih2
      · simp [hh, List.isEmpty_iff.mp hh, QNode.allVals]
    have p3 : (if h3.isEmpty then QNode.leaf g3
        else (QNode.leaf g3).insert_many (compute_bounds bounds 3) (depth + 1) h3).allVals.Perm
        (h3 ++ g3) := by
      rcases hh : h3.isEmpty with _ | _
      · simpa [hh, QNode.allVals] using ih3
      · simp [hh, List.isEmpty_iff.mp hh, QNode.allVals]
    refine (((((List.Perm.refl (keep ++ hkeep)).append p0).append p1).append p2).append
      p3).trans ?_
    apply perm_of_multiset_eq
    have hi := Multiset.coe_eq_coe.mpr (group_perm hgi)
    have hv := Multiset.coe_eq_coe.mpr (group_perm hgv)
    simp only [← Multiset.coe_add] at hi hv ⊢
    rw [hi, hv]
    abel

theorem mem_allVals_insert_many (n : QNode T) (bounds : Rect) (depth : Nat) (items : List T)
    (x : T) :
    x ∈ (n.insert_many bounds depth items).allVals ↔ x ∈ items ∨ x ∈ n.allVals := by
  rw [(allVals_insert_many_perm n bounds depth items).mem_iff, List.mem_append]

end Exigra

namespace Exigra

variable {T : Type} [AsQuadVal T]

theorem Inv_insert_many (n : QNode T) (bounds : Rect) (depth : Nat) (items : List T)
    (hInv : Inv bounds n) : Inv bounds (n.insert_many bounds depth items) := by
  induction n, bounds, depth, items using QNode.insert_many.induct with
  | case1 bounds depth items c0 c1 c2 c3 vs h0 h1 h2 h3 hkeep hg ih0 ih1 ih2 ih3 =>
    obtain ⟨e0, e1, e2, e3, ek⟩ := group_parts_eq hg
    rw [QNode.insert_many.eq_def]
    simp only [hg]
    simp only [Inv] at hInv ⊢
    obtain ⟨⟨h0m, h0i⟩, ⟨h1m, h1i⟩, ⟨h2m, h2i⟩, ⟨h3m, h3i⟩⟩ := hInv
    refine ⟨⟨?_, ?_⟩, ⟨?_, ?_⟩, ⟨?_, ?_⟩, ⟨?_, ?_⟩⟩
    · intro x hx
      rcases hh : h0.isEmpty with _ | _
      · rw [if_neg (by simp [hh])] at hx
        rcases (mem_allVals_insert_many _ _ _ _ _).mp hx with hx | hx
        · exact mem_group_filter (e0 ▸ hx)
        · exact h0m x hx
      · rw [if_pos (by simp [hh])] at hx
        exact h0m x hx
    · rcases hh : h0.isEmpty with _ | _
      · rw [if_neg (by simp [hh])]
        exact ih0 h0i
      · rw [if_pos (by simp [hh])]
        exact h0i
    · intro x hx
      rcases hh : h1.isEmpty with _ | _
      · rw [if_neg (by simp [hh])] at hx
        rcases (mem_allVals_insert_many _ _ _ _ _).mp hx with hx | hx
        · exact mem_group_filter (e1 ▸ hx)
        · exact h1m x hx
      · rw [if_pos (by simp [hh])] at hx
        exact h1m x hx
    · rcases hh : h1.isEmpty with _ | _
      · rw [if_neg (by simp [hh])]
        exact ih1 h1i
      · rw [if_pos (by simp [hh])]
        exact h1i
    · intro x hx
      rcases hh : h2.isEmpty with _ | _
      · rw [if_neg (by simp [hh])] at hx
        rcases (mem_allVals_insert_many _ _ _ _ _).mp hx with hx | hx
        · exact mem_group_filter (e2 ▸ hx)
        · exact h2m x hx
      · rw [if_pos (by simp [hh])] at hx
        exact h2m x hx
    · rcases hh : h2.isEmpty with _ | _
      · rw [if_neg (by simp [hh])]
        exact ih2 h2i
      · rw [if_pos (by simp [hh])]
        exact h2i
    · intro x hx
      rcases hh : h3.isEmpty with _ | _
      · rw [if_neg (by simp [hh])] at hx
        rcases (mem_allVals_insert_many _ _ _ _ _).mp hx with hx | hx
        · exact mem_group_filter (e3 ▸ hx)
        · exact h3m x hx
      · rw [if_pos (by simp [hh])] at hx
        exact h3m x hx
    · rcases hh : h3.isEmpty with _ | _
      · rw [if_neg (by simp [hh])]
        exact ih3 h3i
      · rw [if_pos (by simp [hh])]
        exact h3i
  | case2 bounds depth items vs hcond =>
    rw [QNode.insert_many.eq_def]
    simp only [dif_pos hcond]
    trivial
  | case3 bounds depth items vs hcond g0 g1 g2 g3 keep h0 h1 h2 h3 hkeep hgi hgv ih0 ih1 ih2 ih3 =>
    obtain ⟨e0, e1, e2, e3, ek⟩ := group_parts_eq hgi
    obtain ⟨f0, f1, f2, f3, fk⟩ := group_parts_eq hgv
    rw [QNode.insert_many.eq_def]
    simp only [dif_neg hcond]
    simp only [hgi, hgv]
    simp only [Inv]
    have gmem : ∀ (i : Fin 4) (g : List T),
        g = (vs.filter fun it => find_quadrant bounds (as_quad_val it) = some i) →
        ∀ x ∈ (QNode.leaf g).allVals, find_quadrant bounds (as_quad_val x) = some i := by
      intro i g hgdef x hx
      exact mem_group_filter (hgdef ▸ hx)
    refine ⟨⟨?_, ?_⟩, ⟨?_, ?_⟩, ⟨?_, ?_⟩, ⟨?_, ?_⟩⟩
    · intro x hx
      rcases hh : h0.isEmpty with _ | _
      · rw [if_neg (by simp [hh])] at hx
        rcases (mem_allVals_insert_many _ _ _ _ _).mp hx with hx | hx
        · exact mem_group_filter (e0 ▸ hx)
        · exact gmem 0 g0 f0 x hx
      · rw [if_pos (by simp [hh])] at hx
        exact gmem 0 g0 f0 x hx
    · rcases hh : h0.isEmpty with _ | _
      · rw [if_neg (by simp [hh])]
        exact ih0 trivial
      · rw [if_pos (by simp [hh])]
        trivial
    · intro x hx
      rcases hh : h1.isEmpty with _ | _
      · rw [if_neg (by simp [hh])] at hx
        rcases (mem_allVals_insert_many _ _ _ _ _).mp hx with hx | hx
        · exact mem_group_filter (e1 ▸ hx)
        · exact gmem 1 g1 f1 x hx
      · rw [if_pos (by simp [hh])] at hx
        exact gmem 1 g1 f1 x hx
    · rcases hh : h1.isEmpty with _ | _
      · rw [if_neg (by simp [hh])]
        exact ih1 trivial
      · rw [if_pos (by simp [hh])]
        trivial
    · intro x hx
      rcases hh : h2.isEmpty with _ | _
      · rw [if_neg (by simp [hh])] at hx
        rcases (mem_allVals_insert_many _ _ _ _ _).mp hx with hx | hx
        · exact mem_group_filter (e2 ▸ hx)
        · exact gmem 2 g2 f2 x hx
      · rw [if_pos (by simp [hh])] at hx
        exact gmem 2 g2 f2 x hx
    · rcases hh : h2.isEmpty with _ | _
      · rw [if_neg (by simp [hh])]
        exact ih2 trivial
      · rw [if_pos (by simp [hh])]
        trivial
    · intro x hx
      rcases hh : h3.isEmpty with _ | _
      · rw [if_neg (by simp [hh])] at hx
        rcases (mem_allVals_insert_many _ _ _ _ _).mp hx with hx | hx
        · exact mem_group_filter (e3 ▸ hx)
        · exact gmem 3 g3 f3 x hx
      · rw [if_pos (by simp [hh])] at hx
        exact gmem 3 g3 f3 x hx
    · rcases hh : h3.isEmpty with _ | _
      · rw [if_neg (by simp [hh])]
        exact ih3 trivial
      · rw [if_pos (by simp [hh])]
        trivial

end Exigra

namespace Exigra

variable {T : Type} [AsQuadVal T]

theorem tryMergeNode_allVals (c0 c1 c2 c3 : QNode T) (vs : List T) :
    (tryMergeNode c0 c1 c2 c3 vs).1.allVals = (QNode.node c0 c1 c2 c3 vs).allVals := by
  cases c0 <;> cases c1 <;> cases c2 <;> cases c3 <;>
    simp only [tryMergeNode, QNode.allVals] <;>
    split_ifs <;>
    simp [QNode.allVals]

theorem tryMergeNode_Inv (b : Rect) (c0 c1 c2 c3 : QNode T) (vs : List T)
    (hInv : Inv b (QNode.node c0 c1 c2 c3 vs)) : Inv b (tryMergeNode c0 c1 c2 c3 vs).1 := by
  cases c0 <;> cases c1 <;> cases c2 <;> cases c3 <;>
    first
      | exact hInv
      | (simp only [tryMergeNode]
         split_ifs
         · trivial
         · exact hInv)

theorem mem_remove_found_val [DecidableEq T] (vs : List T) (v x : T)
    (hx : x ∈ remove_found_val vs v) : x ∈ vs := by
  unfold remove_found_val at hx
  rcases hidx : vs.findIdx? fun w => v = w with _ | i
  · rwa [hidx] at hx
  · rw [hidx] at hx
    have hx2 := List.dropLast_subset _ hx
    rcases List.mem_or_eq_of_mem_set hx2 with h | h
    · exact h
    · subst h
      have hne : vs ≠ [] := by
        intro hnil
        rw [hnil] at hidx
        simp [List.findIdx?] at hidx
      rw [List.getD_eq_getElem?_getD]
      have hlt : vs.length - 1 < vs.length := by
        have := List.length_pos.mpr hne
        omega
      rw [List.getElem?_eq_getElem hlt]
      exact List.getElem_mem hlt

theorem QNode.remove_sub [DecidableEq T] (n : QNode T) (bounds : Rect) (v : T)
    (n' : QNode T) (flag : Bool) (h : n.remove bounds v = some (n', flag)) :
    (∀ x ∈ n'.allVals, x ∈ n.allVals) ∧ (Inv bounds n → Inv bounds n') := by
  induction n generalizing bounds n' flag with
  | leaf vs =>
    simp only [QNode.remove, Option.some.injEq, Prod.mk.injEq] at h
    obtain ⟨h1, h2⟩ := h
    subst h1
    exact ⟨fun x hx => mem_remove_found_val vs v x hx, fun _ => trivial⟩
  | node c0 c1 c2 c3 vs ih0 ih1 ih2 ih3 =>
    simp only [QNode.remove] at h
    split at h
    · -- quadrant 0
      rename_i hq
      split at h
      · exact absurd h (by simp)
      · rename_i c0' flag' hc
        split at h
        · rename_i hflag
          simp only [Option.some.injEq] at h
          have hn' : n' = (tryMergeNode c0' c1 c2 c3 vs).1 := by rw [h]
          subst hn'
          obtain ⟨hsub, hinv⟩ := ih0 _ _ _ hc
          constructor
          · intro x hx
            rw [tryMergeNode_allVals] at hx
            simp only [QNode.allVals, List.mem_append] at hx ⊢
            rcases hx with ((((hx | hx) | hx) | hx) | hx) <;>
              first
                | tauto
                | (have hsx := hsub x hx; tauto)
          · intro hInv
            refine tryMergeNode_Inv bounds _ _ _ _ _ ?_
            simp only [Inv] at hInv ⊢
            obtain ⟨⟨h0m, h0i⟩, rest⟩ := hInv
            exact ⟨⟨fun x hx => h0m x (hsub x hx), hinv h0i⟩, rest⟩
        · exact absurd h (by simp)
    · -- quadrant 1
      rename_i hq
      split at h
      · exact absurd h (by simp)
      · rename_i c1' flag' hc
        split at h
        · rename_i hflag
          simp only [Option.some.injEq] at h
          have hn' : n' = (tryMergeNode c0 c1' c2 c3 vs).1 := by rw [h]
          subst hn'
          obtain ⟨hsub, hinv⟩ := ih1 _ _ _ hc
          constructor
          · intro x hx
            rw [tryMergeNode_allVals] at hx
            simp only [QNode.allVals, List.mem_append] at hx ⊢
            rcases hx with ((((hx | hx) | hx) | hx) | hx) <;>
              first
                | tauto
                | (have hsx := hsub x hx; tauto)
          · intro hInv
            refine tryMergeNode_Inv bounds _ _ _ _ _ ?_
            simp only [Inv] at hInv ⊢
            obtain ⟨h0, ⟨h1m, h1i⟩, rest⟩ := hInv
            exact ⟨h0, ⟨fun x hx => h1m x (hsub x hx), hinv h1i⟩, rest⟩
        · exact absurd h (by simp)
    · -- quadrant 2
      rename_i hq
      split at h
      · exact absurd h (by simp)
      · rename_i c2' flag' hc
        split at h
        · rename_i hflag
          simp only [Option.some.injEq] at h
          have hn' : n' = (tryMergeNode c0 c1 c2' c3 vs).1 := by rw [h]
          subst hn'
          obtain ⟨hsub, hinv⟩ := ih2 _ _ _ hc
          constructor
          · intro x hx
            rw [tryMergeNode_allVals] at hx
            simp only [QNode.allVals, List.mem_append] at hx ⊢
            rcases hx with ((((hx | hx) | hx) | hx) | hx) <;>
              first
                | tauto
                | (have hsx := hsub x hx; tauto)
          · intro hInv
            refine tryMergeNode_Inv bounds _ _ _ _ _ ?_
            simp only [Inv] at hInv ⊢
            obtain ⟨h0, h1, ⟨h2m, h2i⟩, rest⟩ := hInv
            exact ⟨h0, h1, ⟨fun x hx => h2m x (hsub x hx), hinv h2i⟩, rest⟩
        · exact absurd h (by simp)
    · -- quadrant 3
      rename_i hq
      split at h
      · exact absurd h (by simp)
      · rename_i c3' flag' hc
        split at h
        · rename_i hflag
          simp only [Option.some.injEq] at h
          have hn' : n' = (tryMergeNode c0 c1 c2 c3' vs).1 := by rw [h]
          subst hn'
          obtain ⟨hsub, hinv⟩ := ih3 _ _ _ hc
          constructor
          · intro x hx
            rw [tryMergeNode_allVals] at hx
            simp only [QNode.allVals, List.mem_append] at hx ⊢
            rcases hx with ((((hx | hx) | hx) | hx) | hx) <;>
              first
                | tauto
                | (have hsx := hsub x hx; tauto)
          · intro hInv
            refine tryMergeNode_Inv bounds _ _ _ _ _ ?_
            simp only [Inv] at hInv ⊢
            obtain ⟨h0, h1, h2, ⟨h3m, h3i⟩⟩ := hInv
            exact ⟨h0, h1, h2, ⟨fun x hx => h3m x (hsub x hx), hinv h3i⟩⟩
        · exact absurd h (by simp)
    · -- no quadrant: removed from this node's own values
      rename_i hq
      simp only [Option.some.injEq, Prod.mk.injEq] at h
      obtain ⟨h1, h2⟩ := h
      subst h1
      constructor
      · intro x hx
        simp only [QNode.allVals, List.mem_append] at hx ⊢
        rcases hx with ((((hx | hx) | hx) | hx) | hx) <;>
          first
            | tauto
            | (have hmr := mem_remove_found_val vs v x hx; tauto)
      · intro hInv
        simp only [Inv] at hInv ⊢
        exact hInv

end Exigra

namespace Exigra

variable {T : Type} [AsQuadVal T]

theorem QNode.clear_eq (n : QNode T) : n.clear = .leaf [] := by
  induction n with
  | leaf vs => rfl
  | node c0 c1 c2 c3 vs ih0 ih1 ih2 ih3 =>
    simp only [QNode.clear, ih0, ih1, ih2, ih3, tryMergeNode]
    norm_num [THRESHOLD]

/-- Trees reachable through the public `Quadtree` interface, inserting only
well-formed shapes (the spec's data-model invariant).  A `remove` step is
taken only when it does not panic. -/
inductive Reachable [DecidableEq T] : Quadtree T → Prop
  | new (bounds : Rect) : Reachable (Quadtree.new bounds)
  | insert (t : Quadtree T) (v : T) : Reachable t → WFVal (as_quad_val v) →
      Reachable (t.insert v)
  | insert_many (t : Quadtree T) (items : List T) : Reachable t →
      (∀ x ∈ items, WFVal (as_quad_val x)) → Reachable (t.insert_many items)
  | remove (t t' : Quadtree T) (v : T) : Reachable t → t.remove v = some t' → Reachable t'
  | clear (t : Quadtree T) : Reachable t → Reachable t.clear

theorem Reachable_Inv [DecidableEq T] (t : Quadtree T) (h : Reachable t) :
    Inv t.bounds t.root ∧ ∀ x ∈ t.root.allVals, WFVal (as_quad_val x) := by
  induction h with
  | new bounds => exact ⟨trivial, by simp [Quadtree.new, QNode.allVals]⟩
  | insert t v ht hwf ih =>
    obtain ⟨hInv, hall⟩ := ih
    refine ⟨Inv_insert _ _ _ _ hInv, ?_⟩
    intro x hx
    rcases (mem_allVals_insert _ _ _ _ _).mp hx with rfl | hx
    · exact hwf
    · exact hall x hx
  | insert_many t items ht hwf ih =>
    obtain ⟨hInv, hall⟩ := ih
    refine ⟨Inv_insert_many _ _ _ _ hInv, ?_⟩
    intro x hx
    rcases (mem_allVals_insert_many _ _ _ _ _).mp hx with hx | hx
    · exact hwf x hx
    · exact hall x hx
  | remove t t' v ht hrm ih =>
    obtain ⟨hInv, hall⟩ := ih
    simp only [Quadtree.remove, Option.map_eq_some'] at hrm
    obtain ⟨⟨n', flag⟩, hsome, ht'⟩ := hrm
    obtain ⟨hsub, hinv⟩ := QNode.remove_sub _ _ _ _ _ hsome
    subst ht'
    exact ⟨hinv hInv, fun x hx => hall x (hsub x hx)⟩
  | clear t ht ih =>
    simp only [Quadtree.clear, QNode.clear_eq]
    exact ⟨trivial, by simp [QNode.allVals]⟩

/-- The containment form of the invariant: each child subtree holds only
values fully contained in that child's computed sub-bounds, at every level. -/
def Bounded (b : Rect) : QNode T → Prop
  | .leaf _ => True
  | .node c0 c1 c2 c3 _ =>
    ((∀ x ∈ c0.allVals, (as_quad_val x).is_contained_by (compute_bounds b 0) = true) ∧
      Bounded (compute_bounds b 0) c0) ∧
    ((∀ x ∈ c1.allVals, (as_quad_val x).is_contained_by (compute_bounds b 1) = true) ∧
      Bounded (compute_bounds b 1) c1) ∧
    ((∀ x ∈ c2.allVals, (as_quad_val x).is_contained_by (compute_bounds b 2) = true) ∧
      Bounded (compute_bounds b 2) c2) ∧
    ((∀ x ∈ c3.allVals, (as_quad_val x).is_contained_by (compute_bounds b 3) = true) ∧
      Bounded (compute_bounds b 3) c3)

theorem Inv_Bounded (b : Rect) (n : QNode T) (hInv : Inv b n)
    (hwf : ∀ x ∈ n.allVals, WFVal (as_quad_val x)) : Bounded b n := by
  induction n generalizing b with
  | leaf vs => trivial
  | node c0 c1 c2 c3 vs ih0 ih1 ih2 ih3 =>
    simp only [Inv] at hInv
    obtain ⟨⟨h0m, h0i⟩, ⟨h1m, h1i⟩, ⟨h2m, h2i⟩, ⟨h3m, h3i⟩⟩ := hInv
    have hsub : ∀ x : T, (x ∈ c0.allVals ∨ x ∈ c1.allVals ∨ x ∈ c2.allVals ∨ x ∈ c3.allVals) →
        WFVal (as_quad_val x) := by
      intro x hx
      refine hwf x ?_
      simp only [QNode.allVals, List.mem_append]
      tauto
    refine ⟨⟨?_, ih0 _ h0i fun x hx => hsub x (by tauto)⟩,
      ⟨?_, ih1 _ h1i fun x hx => hsub x (by tauto)⟩,
      ⟨?_, ih2 _ h2i fun x hx => hsub x (by tauto)⟩,
      ⟨?_, ih3 _ h3i fun x hx => hsub x (by tauto)⟩⟩
    · intro x hx
      obtain ⟨hqx, hqy⟩ := (hsub x (by tauto)).aabb_le
      exact find_quadrant_contained0 b _ hqx hqy (h0m x hx)
    · intro x hx
      obtain ⟨hqx, hqy⟩ := (hsub x (by tauto)).aabb_le
      exact find_quadrant_contained1 b _ hqx hqy (h1m x hx)
    · intro x hx
      obtain ⟨hqx, hqy⟩ := (hsub x (by tauto)).aabb_le
      exact find_quadrant_contained2 b _ hqx hqy (h2m x hx)
    · intro x hx
      obtain ⟨hqx, hqy⟩ := (hsub x (by tauto)).aabb_le
      exact find_quadrant_contained3 b _ hqx hqy (h3m x hx)

theorem Inv_subdivideLeaf (bounds : Rect) (vs : List T) : Inv bounds (subdivideLeaf bounds vs) := by
  unfold subdivideLeaf group_by_quadrant
  simp only [Inv, QNode.allVals]
  exact ⟨⟨fun x hx => mem_group_filter hx, trivial⟩, ⟨fun x hx => mem_group_filter hx, trivial⟩,
    ⟨fun x hx => mem_group_filter hx, trivial⟩, ⟨fun x hx => mem_group_filter hx, trivial⟩⟩

/-- Claim C5: (subdivide part) after subdividing a leaf holding well-formed
values, each of the four children holds only values whose AABB is fully inside
that child's computed sub-bounds; and (reachable part) this containment holds
at every node of every tree reachable through the public interface with
well-formed values. -/
theorem c5_containment_invariant :
    (∀ (U : Type) [AsQuadVal U] (bounds : Rect) (vs : List U),
      (∀ x ∈ vs, WFVal (as_quad_val x)) → Bounded bounds (subdivideLeaf bounds vs)) ∧
    (∀ (U : Type) [AsQuadVal U] [DecidableEq U] (t : Quadtree U),
      Reachable t → Bounded t.bounds t.root) := by
  constructor
  · intro U _ bounds vs hwf
    refine Inv_Bounded bounds _ (Inv_subdivideLeaf bounds vs) ?_
    intro x hx
    exact hwf x ((allVals_subdivideLeaf bounds vs).mem_iff.mp hx)
  · intro U _ _ t ht
    obtain ⟨hInv, hall⟩ := Reachable_Inv t ht
    exact Inv_Bounded _ _ hInv hall

/-- Witness for claim C5: both parts applied at a concrete input — a leaf
holding one point subdivided over the `(0,0)-(8,8)` bounds, and the tree
reached by inserting that point. -/
theorem c5_witness :
    Bounded b8 (subdivideLeaf b8 [(⟨1, 1⟩ : Vec2)]) ∧
    Bounded b8 ((Quadtree.new b8).insert (⟨1, 1⟩ : Vec2)).root :=
  ⟨c5_containment_invariant.1 Vec2 b8 [⟨1, 1⟩]
    (by intro x hx; simp only [List.mem_singleton] at hx; subst hx; with_unfolding_all decide),
   by
    have h := c5_containment_invariant.2 Vec2 ((Quadtree.new b8).insert ⟨1, 1⟩)
      (Reachable.insert _ _ (Reachable.new b8) (by with_unfolding_all decide))
    simpa [Quadtree.insert, Quadtree.new] using h⟩

end Exigra

namespace Exigra

set_option maxRecDepth 100000

variable {T : Type} [AsQuadVal T]

theorem QNode.query_sound (n : QNode T) (qb region : Rect) (r : List T)
    (h : n.query qb region = some r) :
    ∀ x ∈ r, x ∈ n.allVals ∧ (as_quad_val x).intersects (as_quad_val region) = true := by
  induction n generalizing qb r with
  | leaf vs =>
    simp only [QNode.query] at h
    split at h
    · exact absurd h (by simp)
    · injection h with h
      subst h
      intro x hx
      rw [List.mem_filter] at hx
      exact ⟨hx.1, hx.2⟩
  | node c0 c1 c2 c3 vs ih0 ih1 ih2 ih3 =>
    simp only [QNode.query] at h
    split at h
    · exact absurd h (by simp)
    · rw [Option.bind_eq_some] at h
      obtain ⟨r0, h0, h⟩ := h
      rw [Option.bind_eq_some] at h
      obtain ⟨r1, h1, h⟩ := h
      rw [Option.bind_eq_some] at h
      obtain ⟨r2, h2, h⟩ := h
      rw [Option.bind_eq_some] at h
      obtain ⟨r3, h3, h⟩ := h
      injection h with h
      subst h
      intro x hx
      simp only [List.mem_append] at hx
      have inAll : ∀ y : T, (y ∈ vs ∨ y ∈ c0.allVals ∨ y ∈ c1.allVals ∨ y ∈ c2.allVals ∨
          y ∈ c3.allVals) → y ∈ (QNode.node c0 c1 c2 c3 vs).allVals := by
        intro y hy
        simp only [QNode.allVals, List.mem_append]
        tauto
      rcases hx with (((hx | hx) | hx) | hx) | hx
      · rw [List.mem_filter] at hx
        exact ⟨inAll x (Or.inl hx.1), hx.2⟩
      · split at h0
        · injection h0 with h0; subst h0; exact absurd hx (by simp)
        · obtain ⟨hm, hi⟩ := ih0 _ _ h0 x hx
          exact ⟨inAll x (by tauto), hi⟩
      · split at h1
        · injection h1 with h1; subst h1; exact absurd hx (by simp)
        · obtain ⟨hm, hi⟩ := ih1 _ _ h1 x hx
          exact ⟨inAll x (by tauto), hi⟩
      · split at h2
        · injection h2 with h2; subst h2; exact absurd hx (by simp)
        · obtain ⟨hm, hi⟩ := ih2 _ _ h2 x hx
          exact ⟨inAll x (by tauto), hi⟩
      · split at h3
        · injection h3 with h3; subst h3; exact absurd hx (by simp)
        · obtain ⟨hm, hi⟩ := ih3 _ _ h3 x hx
          exact ⟨inAll x (by tauto), hi⟩

theorem intersect_not_empty_mono (region cb : Rect) (q : QuadVal)
    (hc : q.is_contained_by cb = true)
    (h : (region.intersect q.aabb).is_empty = false) :
    (region.intersect cb).is_empty = false := by
  rw [is_contained_by_iff] at hc
  obtain ⟨c1, c2, c3, c4, c5, c6, c7, c8⟩ := hc
  rw [intersect_not_empty_iff] at h ⊢
  obtain ⟨hx, hy⟩ := h
  simp only [max_lt_iff, lt_min_iff] at hx hy ⊢
  obtain ⟨⟨hx1, hx2⟩, hx3, hx4⟩ := hx
  obtain ⟨⟨hy1, hy2⟩, hy3, hy4⟩ := hy
  exact ⟨⟨⟨hx1, by linarith⟩, by linarith, by linarith⟩,
    ⟨⟨hy1, by linarith⟩, by linarith, by linarith⟩⟩

theorem query_child_some (c : QNode T) (cb region : Rect) :
    ∃ l, (if (region.intersect cb).is_empty then some ([] : List T)
      else c.query cb region) = some l := by
  split
  · exact ⟨[], rfl⟩
  · rename_i hcond
    rcases hq : c.query cb region with _ | l
    · rw [QNode.query_eq_none_iff, intersect_is_empty_comm] at hq
      exact absurd hq hcond
    · exact ⟨l, rfl⟩

theorem QNode.query_complete (n : QNode T) (qb region : Rect)
    (hB : Bounded qb n)
    (hroot : (qb.intersect region).is_empty = false)
    (x : T) (hx : x ∈ n.allVals)
    (hint : (as_quad_val x).intersects (as_quad_val region) = true)
    (hov : (region.intersect (as_quad_val x).aabb).is_empty = false) :
    ∃ r, n.query qb region = some r ∧ x ∈ r := by
  induction n generalizing qb with
  | leaf vs =>
    rw [QNode.query, if_neg (by simp [hroot])]
    exact ⟨_, rfl, List.mem_filter.mpr ⟨hx, hint⟩⟩
  | node c0 c1 c2 c3 vs ih0 ih1 ih2 ih3 =>
    simp only [Bounded] at hB
    obtain ⟨⟨hc0, hB0⟩, ⟨hc1, hB1⟩, ⟨hc2, hB2⟩, ⟨hc3, hB3⟩⟩ := hB
    rw [QNode.query, if_neg (by simp [hroot])]
    simp only [QNode.allVals, List.mem_append] at hx
    rcases hx with (((hx | hx) | hx) | hx) | hx
    · obtain ⟨l0, h0⟩ := query_child_some c0 (compute_bounds qb 0) region
      obtain ⟨l1, h1⟩ := query_child_some c1 (compute_bounds qb 1) region
      obtain ⟨l2, h2⟩ := query_child_some c2 (compute_bounds qb 2) region
      obtain ⟨l3, h3⟩ := query_child_some c3 (compute_bounds qb 3) region
      rw [h0, Option.some_bind, h1, Option.some_bind, h2, Option.some_bind, h3,
        Option.some_bind]
      exact ⟨_, rfl, by
        simp only [List.mem_append]
        exact Or.inl (Or.inl (Or.inl (Or.inl (List.mem_filter.mpr ⟨hx, hint⟩))))⟩
    · have hnc : (region.intersect (compute_bounds qb 0)).is_empty = false :=
        intersect_not_empty_mono _ _ _ (hc0 x hx) hov
      have hroot0 : ((compute_bounds qb 0).intersect region).is_empty = false := by
        rw [intersect_is_empty_comm]; exact hnc
      obtain ⟨r0, hq0, hxr0⟩ := ih0 _ hB0 hroot0 hx
      rw [if_neg (by simp [hnc]), hq0, Option.some_bind]
      obtain ⟨l1, h1⟩ := query_child_some c1 (compute_bounds qb 1) region
      obtain ⟨l2, h2⟩ := query_child_some c2 (compute_bounds qb 2) region
      obtain ⟨l3, h3⟩ := query_child_some c3 (compute_bounds qb 3) region
      rw [h1, Option.some_bind, h2, Option.some_bind, h3, Option.some_bind]
      exact ⟨_, rfl, by simp only [List.mem_append]; tauto⟩
    · have hnc : (region.intersect (compute_bounds qb 1)).is_empty = false :=
        intersect_not_empty_mono _ _ _ (hc1 x hx) hov
      have hroot1 : ((compute_bounds qb 1).intersect region).is_empty = false := by
        rw [intersect_is_empty_comm]; exact hnc
      obtain ⟨r1, hq1, hxr1⟩ := ih1 _ hB1 hroot1 hx
      obtain ⟨l0, h0⟩ := query_child_some c0 (compute_bounds qb 0) region
      rw [h0, Option.some_bind, if_neg (by simp [hnc]), hq1, Option.some_bind]
      obtain ⟨l2, h2⟩ := query_child_some c2 (compute_bounds qb 2) region
      obtain ⟨l3, h3⟩ := query_child_some c3 (compute_bounds qb 3) region
      rw [h2, Option.some_bind, h3, Option.some_bind]
      exact ⟨_, rfl, by simp only [List.mem_append]; tauto⟩
    · have hnc : (region.intersect (compute_bounds qb 2)).is_empty = false :=
        intersect_not_empty_mono _ _ _ (hc2 x hx) hov
      have hroot2 : ((compute_bounds qb 2).intersect region).is_empty = false := by
        rw [intersect_is_empty_comm]; exact hnc
      obtain ⟨r2, hq2, hxr2⟩ := ih2 _ hB2 hroot2 hx
      obtain ⟨l0, h0⟩ := query_child_some c0 (compute_bounds qb 0) region
      obtain ⟨l1, h1⟩ := query_child_some c1 (compute_bounds qb 1) region
      rw [h0, Option.some_bind, h1, Option.some_bind, if_neg (by simp [hnc]), hq2,
        Option.some_bind]
      obtain ⟨l3, h3⟩ := query_child_some c3 (compute_bounds qb 3) region
      rw [h3, Option.some_bind]
      exact ⟨_, rfl, by simp only [List.mem_append]; tauto⟩
    · have hnc : (region.intersect (compute_bounds qb 3)).is_empty = false :=
        intersect_not_empty_mono _ _ _ (hc3 x hx) hov
      have hroot3 : ((compute_bounds qb 3).intersect region).is_empty = false := by
        rw [intersect_is_empty_comm]; exact hnc
      obtain ⟨r3, hq3, hxr3⟩ := ih3 _ hB3 hroot3 hx
      obtain ⟨l0, h0⟩ := query_child_some c0 (compute_bounds qb 0) region
      obtain ⟨l1, h1⟩ := query_child_some c1 (compute_bounds qb 1) region
      obtain ⟨l2, h2⟩ := query_child_some c2 (compute_bounds qb 2) region
      rw [h0, Option.some_bind, h1, Option.some_bind, h2, Option.some_bind,
        if_neg (by simp [hnc]), hq3, Option.some_bind]
      exact ⟨_, rfl, by simp only [List.mem_append]; tauto⟩

end Exigra

namespace Exigra

set_option maxRecDepth 100000

/-- Straddler stored in quadrant 1 whose AABB only touches the query region. -/
def c1w : QuadVal := ⟨⟨32, 2⟩, .circle ⟨0⟩⟩

/-- Tree built by inserting the 32 diagonal points and then `c1w`. -/
def c1T : Quadtree QuadVal := buildTree b64 (diagPts ++ [c1w])

/-- Query region covering the lower-left quadrant, overlapping the bounds. -/
def c1R : Rect := Rect.from_corners ⟨0, 0⟩ ⟨32, 32⟩

/-- Claim C1 counterexample: in the tree of 33 inserted values, `c1w` is stored
and its shape intersects the region `c1R` under the inclusive predicate, the
region overlaps the tree bounds with non-empty interior, and `query` completes
normally — yet `c1w` is missing from the returned list, because the descent
skips quadrant 1, whose sub-bounds only touch the region along an edge. -/
theorem c1_counterexample :
    c1w ∈ c1T.root.allVals ∧
    (as_quad_val c1w).intersects (as_quad_val c1R) = true ∧
    (c1T.bounds.intersect c1R).is_empty = false ∧
    c1T.query c1R = some ((c1T.query c1R).getD []) ∧
    c1w ∉ (c1T.query c1R).getD [] := by
  with_unfolding_all decide

end Exigra

namespace Exigra

set_option maxRecDepth 100000

/-- Claim C1 (amended): for every tree reachable through the public interface
with well-formed values and every region for which `query` completes,
the result contains only stored values whose shape intersects the region
(no false positives), and it contains every stored value whose shape
intersects the region and whose AABB overlaps the region with non-empty
interior; a value whose AABB merely touches the region can be missed. -/
theorem c1_query_sound_and_complete :
    ∀ (U : Type) [AsQuadVal U] [DecidableEq U] (t : Quadtree U), Reachable t →
      ∀ (region : Rect) (r : List U), t.query region = some r →
        (∀ x ∈ r, x ∈ t.root.allVals ∧
          (as_quad_val x).intersects (as_quad_val region) = true) ∧
        (∀ x ∈ t.root.allVals, (as_quad_val x).intersects (as_quad_val region) = true →
          (region.intersect (as_quad_val x).aabb).is_empty = false → x ∈ r) := by
  intro U _ _ t ht region r hq
  obtain ⟨hInv, hwf⟩ := Reachable_Inv t ht
  have hB := Inv_Bounded _ _ hInv hwf
  refine ⟨QNode.query_sound _ _ _ _ hq, ?_⟩
  intro x hx hint hov
  have hroot : (t.bounds.intersect region).is_empty = false := by
    rcases he : (t.bounds.intersect region).is_empty with _ | _
    · rfl
    · rw [← Quadtree.query_none_iff] at he
      rw [hq] at he
      exact absurd he (by simp)
  obtain ⟨r', hq', hxr⟩ := QNode.query_complete _ _ _ hB hroot x hx hint hov
  have : r' = r := Option.some.inj (hq'.symm.trans hq)
  exact this ▸ hxr

/-- Witness square centered at (2,2), fully inside the `(0,0)-(8,8)` bounds. -/
def c1wv : QuadVal := ⟨⟨2, 2⟩, .quad (Rectangle.new 2 2)⟩

/-- One-insert tree used to witness the amended claim C1. -/
def c1wt : Quadtree QuadVal := (Quadtree.new b8).insert c1wv

/-- Witness for claim C1: the amended theorem applied to the one-value tree
`c1wt` queried with its own bounds. -/
theorem c1_witness :
    (c1wv ∈ c1wt.root.allVals ∧
      (as_quad_val c1wv).intersects (as_quad_val b8) = true) ∧
    c1wv ∈ [c1wv] :=
  have h := c1_query_sound_and_complete QuadVal c1wt
    (Reachable.insert _ _ (Reachable.new b8) (by with_unfolding_all decide))
    b8 [c1wv] (by with_unfolding_all decide)
  ⟨h.1 c1wv (by with_unfolding_all decide),
   h.2 c1wv (by with_unfolding_all decide) (by with_unfolding_all decide)
     (by with_unfolding_all decide)⟩

end Exigra

namespace Exigra

theorem dist2_comm (a b : Vec2) : Vec2.dist2 a b = Vec2.dist2 b a := by
  simp only [Vec2.dist2]
  ring

theorem rects_intersect_comm (r s : Rect) : rects_intersect r s = rects_intersect s r := by
  simp only [rects_intersect]
  rw [decide_eq_decide]
  tauto

theorem rectangles_intersect_comm (p1 : Vec2) (r1 : Rectangle) (p2 : Vec2) (r2 : Rectangle) :
    rectangles_intersect p1 r1 p2 r2 = rectangles_intersect p2 r2 p1 r1 := by
  simp only [rectangles_intersect]
  exact rects_intersect_comm _ _

theorem circles_intersect_comm (c1 : Vec2) (r1 : ℚ) (c2 : Vec2) (r2 : ℚ) :
    circles_intersect c1 r1 c2 r2 = circles_intersect c2 r2 c1 r1 := by
  simp only [circles_intersect]
  rw [dist2_comm, add_comm]

theorem capsules_intersect_comm (c1 : Vec2) (k1 : Capsule2d) (c2 : Vec2) (k2 : Capsule2d) :
    capsules_intersect c1 k1 c2 k2 = capsules_intersect c2 k2 c1 k1 := by
  rw [Bool.eq_iff_iff]
  simp only [capsules_intersect, Bool.or_eq_true]
  rw [rectangles_intersect_comm c2 (Rectangle.new (k2.radius * 2) (k2.half_length * 2)) c1
      (Rectangle.new (k1.radius * 2) (k1.half_length * 2)),
    circles_intersect_comm (c2 + ⟨0, k2.half_length⟩) k2.radius (c1 + ⟨0, k1.half_length⟩)
      k1.radius,
    circles_intersect_comm (c2 + ⟨0, k2.half_length⟩) k2.radius (c1 - ⟨0, k1.half_length⟩)
      k1.radius,
    circles_intersect_comm (c2 - ⟨0, k2.half_length⟩) k2.radius (c1 + ⟨0, k1.half_length⟩)
      k1.radius,
    circles_intersect_comm (c2 - ⟨0, k2.half_length⟩) k2.radius (c1 - ⟨0, k1.half_length⟩)
      k1.radius]
  tauto

theorem QuadVal.intersects_comm (v w : QuadVal) : v.intersects w = w.intersects v := by
  rcases v with ⟨vp, vs⟩
  rcases w with ⟨wp, ws⟩
  rcases vs with r1 | ci1 | k1 <;> rcases ws with r2 | ci2 | k2 <;>
    simp only [QuadVal.intersects]
  · exact rectangles_intersect_comm _ _ _ _
  · exact circles_intersect_comm _ _ _ _
  · exact capsules_intersect_comm _ _ _ _

end Exigra

namespace Exigra

theorem clamp_sq_bound (lo hi c r d2 : ℚ) (hlohi : lo ≤ hi) (hr : 0 ≤ r)
    (hd : (max lo (min c hi) - c) ^ 2 ≤ d2) (hd2 : d2 ≤ r ^ 2) :
    lo ≤ c + r ∧ c - r ≤ hi := by
  constructor
  · rcases le_or_lt lo c with h | h
    · linarith
    · have hmin : min c hi = c := min_eq_left (by linarith)
      have hmax : max lo (min c hi) = lo := by rw [hmin]; exact max_eq_left (le_of_lt h)
      rw [hmax] at hd
      nlinarith
  · rcases le_or_lt c hi with h | h
    · linarith
    · have hmin : min c hi = hi := min_eq_right (le_of_lt h)
      have hmax : max lo (min c hi) = hi := by rw [hmin]; exact max_eq_right hlohi
      rw [hmax] at hd
      nlinarith

theorem rc_aabb (rect_pos : Vec2) (rg : Rectangle) (c : Vec2) (r : ℚ)
    (hwx : 0 ≤ rg.half_size.x) (hwy : 0 ≤ rg.half_size.y)
    (h : rectangle_circle_intersect rect_pos rg c r = true) :
    rects_intersect (Rect.from_center_half_size rect_pos rg.half_size)
      (Rect.from_center_half_size c ⟨r, r⟩) = true := by
  simp only [rectangle_circle_intersect, sqrtLe, close_pt, Vec2.dist2,
    Rect.from_center_half_size, Vec2.add_x, Vec2.add_y, Vec2.sub_x, Vec2.sub_y,
    decide_eq_true_eq] at h
  obtain ⟨hr, hd⟩ := h
  have hx := clamp_sq_bound (rect_pos.x - rg.half_size.x) (rect_pos.x + rg.half_size.x) c.x r
    _ (by linarith) hr (by nlinarith [sq_nonneg (max (rect_pos.y - rg.half_size.y)
      (min c.y (rect_pos.y + rg.half_size.y)) - c.y)]) hd
  have hy := clamp_sq_bound (rect_pos.y - rg.half_size.y) (rect_pos.y + rg.half_size.y) c.y r
    _ (by linarith) hr (by nlinarith [sq_nonneg (max (rect_pos.x - rg.half_size.x)
      (min c.x (rect_pos.x + rg.half_size.x)) - c.x)]) hd
  simp only [rects_intersect, Rect.from_center_half_size, Vec2.add_x, Vec2.add_y, Vec2.sub_x,
    Vec2.sub_y, decide_eq_true_eq]
  exact ⟨⟨by linarith [hx.1], by linarith [hx.2]⟩, by linarith [hy.1], by linarith [hy.2]⟩

theorem cc_aabb (c1 : Vec2) (r1 : ℚ) (c2 : Vec2) (r2 : ℚ)
    (h : circles_intersect c1 r1 c2 r2 = true) :
    rects_intersect (Rect.from_center_half_size c1 ⟨r1, r1⟩)
      (Rect.from_center_half_size c2 ⟨r2, r2⟩) = true := by
  simp only [circles_intersect, sqrtLe, Vec2.dist2, decide_eq_true_eq] at h
  obtain ⟨hr, hd⟩ := h
  simp only [rects_intersect, Rect.from_center_half_size, Vec2.add_x, Vec2.add_y, Vec2.sub_x,
    Vec2.sub_y, decide_eq_true_eq]
  refine ⟨⟨?_, ?_⟩, ?_, ?_⟩ <;> nlinarith [sq_nonneg (c1.x - c2.x), sq_nonneg (c1.y - c2.y)]

theorem rects_intersect_mono (a b A B : Rect)
    (haA : A.min.x ≤ a.min.x ∧ a.max.x ≤ A.max.x ∧ A.min.y ≤ a.min.y ∧ a.max.y ≤ A.max.y)
    (hbB : B.min.x ≤ b.min.x ∧ b.max.x ≤ B.max.x ∧ B.min.y ≤ b.min.y ∧ b.max.y ≤ B.max.y)
    (h : rects_intersect a b = true) : rects_intersect A B = true := by
  simp only [rects_intersect, decide_eq_true_eq] at h ⊢
  obtain ⟨⟨hx1, hx2⟩, hy1, hy2⟩ := h
  obtain ⟨ha1, ha2, ha3, ha4⟩ := haA
  obtain ⟨hb1, hb2, hb3, hb4⟩ := hbB
  exact ⟨⟨by linarith, by linarith⟩, by linarith, by linarith⟩

end Exigra

namespace Exigra

set_option maxHeartbeats 2000000 in
theorem intersects_imp_aabb (v w : QuadVal) (hv : WFVal v) (hw : WFVal w)
    (h : v.intersects w = true) : rects_intersect v.aabb w.aabb = true := by
  rcases v with ⟨vp, vs⟩
  rcases w with ⟨wp, ws⟩
  rcases vs with r1 | ci1 | k1 <;> rcases ws with r2 | ci2 | k2
  · simp only [QuadVal.intersects, rectangles_intersect] at h
    simpa only [QuadVal.aabb] using h
  · obtain ⟨hv1, hv2⟩ := hv
    simp only [QuadVal.intersects] at h
    simpa only [QuadVal.aabb] using rc_aabb vp r1 wp ci2.radius hv1 hv2 h
  · obtain ⟨hv1, hv2⟩ := hv
    obtain ⟨hw1, hw2⟩ := hw
    simp only [QuadVal.intersects, rectangle_capsule_intersect, Bool.or_eq_true] at h
    rcases h with (h | h) | h
    · refine rects_intersect_mono _ _ _ _ ?_ ?_ h <;>
        simp only [QuadVal.aabb, Rect.from_center_half_size, Vec2.add_x, Vec2.add_y,
          Vec2.sub_x, Vec2.sub_y] <;>
        exact ⟨by linarith, by linarith, by linarith, by linarith⟩
    · refine rects_intersect_mono _ _ _ _ ?_ ?_ (rc_aabb vp r1 _ k2.radius hv1 hv2 h) <;>
        simp only [QuadVal.aabb, Rect.from_center_half_size, Vec2.add_x, Vec2.add_y,
          Vec2.sub_x, Vec2.sub_y] <;>
        exact ⟨by linarith, by linarith, by linarith, by linarith⟩
    · refine rects_intersect_mono _ _ _ _ ?_ ?_ (rc_aabb vp r1 _ k2.radius hv1 hv2 h) <;>
        simp only [QuadVal.aabb, Rect.from_center_half_size, Vec2.add_x, Vec2.add_y,
          Vec2.sub_x, Vec2.sub_y] <;>
        exact ⟨by linarith, by linarith, by linarith, by linarith⟩
  · obtain ⟨hw1, hw2⟩ := hw
    simp only [QuadVal.intersects] at h
    rw [show (QuadVal.mk vp (.circle ci1)).aabb =
      Rect.from_center_half_size vp ⟨ci1.radius, ci1.radius⟩ from rfl,
      show (QuadVal.mk wp (.quad r2)).aabb = Rect.from_center_half_size wp r2.half_size
        from rfl, rects_intersect_comm]
    exact rc_aabb wp r2 vp ci1.radius hw1 hw2 h
  · simp only [QuadVal.intersects] at h
    simpa only [QuadVal.aabb] using cc_aabb vp ci1.radius wp ci2.radius h
  · obtain ⟨hw1, hw2⟩ := hw
    simp only [QuadVal.intersects, circle_capsule_intersect, Bool.or_eq_true] at h
    rcases h with (h | h) | h
    · have hx : 0 ≤ (Rectangle.new (Rect.from_center_half_size wp
          ⟨k2.radius, k2.half_length⟩).width (Rect.from_center_half_size wp
          ⟨k2.radius, k2.half_length⟩).height).half_size.x := by
        simp only [Rectangle.new, Rect.width, Rect.height, Rect.from_center_half_size,
          Vec2.add_x, Vec2.add_y, Vec2.sub_x, Vec2.sub_y]
        linarith
      have hy : 0 ≤ (Rectangle.new (Rect.from_center_half_size wp
          ⟨k2.radius, k2.half_length⟩).width (Rect.from_center_half_size wp
          ⟨k2.radius, k2.half_length⟩).height).half_size.y := by
        simp only [Rectangle.new, Rect.width, Rect.height, Rect.from_center_half_size,
          Vec2.add_x, Vec2.add_y, Vec2.sub_x, Vec2.sub_y]
        linarith
      have := rc_aabb _ _ vp ci1.radius hx hy h
      rw [rects_intersect_comm] at this
      refine rects_intersect_mono _ _ _ _ ?_ ?_ this <;>
        simp only [QuadVal.aabb, Rect.from_center_half_size, Rect.center, Rect.width,
          Rect.height, Rectangle.new, Vec2.add_x, Vec2.add_y, Vec2.sub_x, Vec2.sub_y] <;>
        exact ⟨by linarith, by linarith, by linarith, by linarith⟩
    · refine rects_intersect_mono _ _ _ _ ?_ ?_ (cc_aabb vp ci1.radius _ k2.radius h) <;>
        simp only [QuadVal.aabb, Rect.from_center_half_size, Vec2.add_x, Vec2.add_y,
          Vec2.sub_x, Vec2.sub_y] <;>
        exact ⟨by linarith, by linarith, by linarith, by linarith⟩
    · refine rects_intersect_mono _ _ _ _ ?_ ?_ (cc_aabb vp ci1.radius _ k2.radius h) <;>
        simp only [QuadVal.aabb, Rect.from_center_half_size, Vec2.add_x, Vec2.add_y,
          Vec2.sub_x, Vec2.sub_y] <;>
        exact ⟨by linarith, by linarith, by linarith, by linarith⟩
  · obtain ⟨hv1, hv2⟩ := hv
    obtain ⟨hw1, hw2⟩ := hw
    simp only [QuadVal.intersects, rectangle_capsule_intersect, Bool.or_eq_true] at h
    rcases h with (h | h) | h
    · rw [rects_intersect_comm] at h
      refine rects_intersect_mono _ _ _ _ ?_ ?_ h <;>
        simp only [QuadVal.aabb, Rect.from_center_half_size, Vec2.add_x, Vec2.add_y,
          Vec2.sub_x, Vec2.sub_y] <;>
        exact ⟨by linarith, by linarith, by linarith, by linarith⟩
    · have := rc_aabb wp r2 _ k1.radius hw1 hw2 h
      rw [rects_intersect_comm] at this
      refine rects_intersect_mono _ _ _ _ ?_ ?_ this <;>
        simp only [QuadVal.aabb, Rect.from_center_half_size, Vec2.add_x, Vec2.add_y,
          Vec2.sub_x, Vec2.sub_y] <;>
        exact ⟨by linarith, by linarith, by linarith, by linarith⟩
    · have := rc_aabb wp r2 _ k1.radius hw1 hw2 h
      rw [rects_intersect_comm] at this
      refine rects_intersect_mono _ _ _ _ ?_ ?_ this <;>
        simp only [QuadVal.aabb, Rect.from_center_half_size, Vec2.add_x, Vec2.add_y,
          Vec2.sub_x, Vec2.sub_y] <;>
        exact ⟨by linarith, by linarith, by linarith, by linarith⟩
  · obtain ⟨hv1, hv2⟩ := hv
    simp only [QuadVal.intersects, circle_capsule_intersect, Bool.or_eq_true] at h
    rcases h with (h | h) | h
    · have hx : 0 ≤ (Rectangle.new (Rect.from_center_half_size vp
          ⟨k1.radius, k1.half_length⟩).width (Rect.from_center_half_size vp
          ⟨k1.radius, k1.half_length⟩).height).half_size.x := by
        simp only [Rectangle.new, Rect.width, Rect.height, Rect.from_center_half_size,
          Vec2.add_x, Vec2.add_y, Vec2.sub_x, Vec2.sub_y]
        linarith
      have hy : 0 ≤ (Rectangle.new (Rect.from_center_half_size vp
          ⟨k1.radius, k1.half_length⟩).width (Rect.from_center_half_size vp
          ⟨k1.radius, k1.half_length⟩).height).half_size.y := by
        simp only [Rectangle.new, Rect.width, Rect.height, Rect.from_center_half_size,
          Vec2.add_x, Vec2.add_y, Vec2.sub_x, Vec2.sub_y]
        linarith
      have := rc_aabb _ _ wp ci2.radius hx hy h
      refine rects_intersect_mono _ _ _ _ ?_ ?_ this <;>
        simp only [QuadVal.aabb, Rect.from_center_half_size, Rect.center, Rect.width,
          Rect.height, Rectangle.new, Vec2.add_x, Vec2.add_y, Vec2.sub_x, Vec2.sub_y] <;>
        exact ⟨by linarith, by linarith, by linarith, by linarith⟩
    · have := cc_aabb wp ci2.radius _ k1.radius h
      rw [rects_intersect_comm] at this
      refine rects_intersect_mono _ _ _ _ ?_ ?_ this <;>
        simp only [QuadVal.aabb, Rect.from_center_half_size, Vec2.add_x, Vec2.add_y,
          Vec2.sub_x, Vec2.sub_y] <;>
        exact ⟨by linarith, by linarith, by linarith, by linarith⟩
    · have := cc_aabb wp ci2.radius _ k1.radius h
      rw [rects_intersect_comm] at this
      refine rects_intersect_mono _ _ _ _ ?_ ?_ this <;>
        simp only [QuadVal.aabb, Rect.from_center_half_size, Vec2.add_x, Vec2.add_y,
          Vec2.sub_x, Vec2.sub_y] <;>
        exact ⟨by linarith, by linarith, by linarith, by linarith⟩
  · obtain ⟨hv1, hv2⟩ := hv
    obtain ⟨hw1, hw2⟩ := hw
    have hI1x : 0 ≤ (Rectangle.new (k1.radius * 2) (k1.half_length * 2)).half_size.x := by
      simp only [Rectangle.new]; linarith
    have hI1y : 0 ≤ (Rectangle.new (k1.radius * 2) (k1.half_length * 2)).half_size.y := by
      simp only [Rectangle.new]; linarith
    have hI2x : 0 ≤ (Rectangle.new (k2.radius * 2) (k2.half_length * 2)).half_size.x := by
      simp only [Rectangle.new]; linarith
    have hI2y : 0 ≤ (Rectangle.new (k2.radius * 2) (k2.half_length * 2)).half_size.y := by
      simp only [Rectangle.new]; linarith
    simp only [QuadVal.intersects, capsules_intersect, rectangles_intersect,
      Bool.or_eq_true] at h
    rcases h with (h | ((h | (h | h)) | (h | h))) | ((h | (h | h)) | (h | h))
    · refine rects_intersect_mono _ _ _ _ ?_ ?_ h <;>
        simp only [QuadVal.aabb, Rect.from_center_half_size, Rectangle.new, Vec2.add_x,
          Vec2.add_y, Vec2.sub_x, Vec2.sub_y] <;>
        exact ⟨by linarith, by linarith, by linarith, by linarith⟩
    · have h2 := rc_aabb wp (Rectangle.new (k2.radius * 2) (k2.half_length * 2)) _
          k1.radius hI2x hI2y h
      rw [rects_intersect_comm] at h2
      refine rects_intersect_mono _ _ _ _ ?_ ?_ h2 <;>
        simp only [QuadVal.aabb, Rect.from_center_half_size, Rectangle.new, Vec2.add_x,
          Vec2.add_y, Vec2.sub_x, Vec2.sub_y] <;>
        exact ⟨by linarith, by linarith, by linarith, by linarith⟩
    · have h2 := rc_aabb vp (Rectangle.new (k1.radius * 2) (k1.half_length * 2)) _
          k2.radius hI1x hI1y h
      refine rects_intersect_mono _ _ _ _ ?_ ?_ h2 <;>
        simp only [QuadVal.aabb, Rect.from_center_half_size, Rectangle.new, Vec2.add_x,
          Vec2.add_y, Vec2.sub_x, Vec2.sub_y] <;>
        exact ⟨by linarith, by linarith, by linarith, by linarith⟩
    · have h2 := cc_aabb _ k1.radius _ k2.radius h
      refine rects_intersect_mono _ _ _ _ ?_ ?_ h2 <;>
        simp only [QuadVal.aabb, Rect.from_center_half_size, Vec2.add_x, Vec2.add_y,
          Vec2.sub_x, Vec2.sub_y] <;>
        exact ⟨by linarith, by linarith, by linarith, by linarith⟩
    · have h2 := rc_aabb vp (Rectangle.new (k1.radius * 2) (k1.half_length * 2)) _
          k2.radius hI1x hI1y h
      refine rects_intersect_mono _ _ _ _ ?_ ?_ h2 <;>
        simp only [QuadVal.aabb, Rect.from_center_half_size, Rectangle.new, Vec2.add_x,
          Vec2.add_y, Vec2.sub_x, Vec2.sub_y] <;>
        exact ⟨by linarith, by linarith, by linarith, by linarith⟩
    · have h2 := cc_aabb _ k1.radius _ k2.radius h
      refine rects_intersect_mono _ _ _ _ ?_ ?_ h2 <;>
        simp only [QuadVal.aabb, Rect.from_center_half_size, Vec2.add_x, Vec2.add_y,
          Vec2.sub_x, Vec2.sub_y] <;>
        exact ⟨by linarith, by linarith, by linarith, by linarith⟩
    · have h2 := rc_aabb wp (Rectangle.new (k2.radius * 2) (k2.half_length * 2)) _
          k1.radius hI2x hI2y h
      rw [rects_intersect_comm] at h2
      refine rects_intersect_mono _ _ _ _ ?_ ?_ h2 <;>
        simp only [QuadVal.aabb, Rect.from_center_half_size, Rectangle.new, Vec2.add_x,
          Vec2.add_y, Vec2.sub_x, Vec2.sub_y] <;>
        exact ⟨by linarith, by linarith, by linarith, by linarith⟩
    · have h2 := rc_aabb vp (Rectangle.new (k1.radius * 2) (k1.half_length * 2)) _
          k2.radius hI1x hI1y h
      refine rects_intersect_mono _ _ _ _ ?_ ?_ h2 <;>
        simp only [QuadVal.aabb, Rect.from_center_half_size, Rectangle.new, Vec2.add_x,
          Vec2.add_y, Vec2.sub_x, Vec2.sub_y] <;>
        exact ⟨by linarith, by linarith, by linarith, by linarith⟩
    · have h2 := cc_aabb _ k1.radius _ k2.radius h
      refine rects_intersect_mono _ _ _ _ ?_ ?_ h2 <;>
        simp only [QuadVal.aabb, Rect.from_center_half_size, Vec2.add_x, Vec2.add_y,
          Vec2.sub_x, Vec2.sub_y] <;>
        exact ⟨by linarith, by linarith, by linarith, by linarith⟩
    · have h2 := rc_aabb vp (Rectangle.new (k1.radius * 2) (k1.half_length * 2)) _
          k2.radius hI1x hI1y h
      refine rects_intersect_mono _ _ _ _ ?_ ?_ h2 <;>
        simp only [QuadVal.aabb, Rect.from_center_half_size, Rectangle.new, Vec2.add_x,
          Vec2.add_y, Vec2.sub_x, Vec2.sub_y] <;>
        exact ⟨by linarith, by linarith, by linarith, by linarith⟩
    · have h2 := cc_aabb _ k1.radius _ k2.radius h
      refine rects_intersect_mono _ _ _ _ ?_ ?_ h2 <;>
        simp only [QuadVal.aabb, Rect.from_center_half_size, Vec2.add_x, Vec2.add_y,
          Vec2.sub_x, Vec2.sub_y] <;>
        exact ⟨by linarith, by linarith, by linarith, by linarith⟩

end Exigra

namespace Exigra

theorem rects_sep_x (r s : Rect) (h : r.max.x < s.min.x) : rects_intersect r s = false := by
  simp only [rects_intersect, decide_eq_false_iff_not]
  intro hc
  obtain ⟨⟨h1, h2⟩, _⟩ := hc
  linarith

theorem rects_sep_y (r s : Rect) (h : r.max.y < s.min.y) : rects_intersect r s = false := by
  simp only [rects_intersect, decide_eq_false_iff_not]
  intro hc
  obtain ⟨_, h1, h2⟩ := hc
  linarith

theorem quadrant_sep (b : Rect) (qa qb : QuadVal) (i j : Fin 4) (hij : i ≠ j)
    (ha : find_quadrant b qa = some i) (hb : find_quadrant b qb = some j) :
    rects_intersect qa.aabb qb.aabb = false := by
  obtain ⟨iv, hiv⟩ := i
  obtain ⟨jv, hjv⟩ := j
  interval_cases iv <;> interval_cases jv
  · exact absurd rfl hij
  · have ha' : find_quadrant b qa = some 0 := ha
    have hb' : find_quadrant b qb = some 1 := hb
    rw [find_quadrant_eq_some0] at ha'
    rw [find_quadrant_eq_some1] at hb'
    exact rects_sep_x _ _ (lt_of_lt_of_le ha'.2.1 hb'.2.2.1)
  · have ha' : find_quadrant b qa = some 0 := ha
    have hb' : find_quadrant b qb = some 2 := hb
    rw [find_quadrant_eq_some0] at ha'
    rw [find_quadrant_eq_some2] at hb'
    exact rects_sep_x _ _ (lt_of_lt_of_le ha'.2.1 hb'.2.2.1)
  · have ha' : find_quadrant b qa = some 0 := ha
    have hb' : find_quadrant b qb = some 3 := hb
    rw [find_quadrant_eq_some0] at ha'
    rw [find_quadrant_eq_some3] at hb'
    exact rects_sep_y _ _ (lt_of_lt_of_le ha'.2.2 hb'.2.2.2)
  · have ha' : find_quadrant b qa = some 1 := ha
    have hb' : find_quadrant b qb = some 0 := hb
    rw [find_quadrant_eq_some1] at ha'
    rw [find_quadrant_eq_some0] at hb'
    rw [rects_intersect_comm]
    exact rects_sep_x _ _ (lt_of_lt_of_le hb'.2.1 ha'.2.2.1)
  · exact absurd rfl hij
  · have ha' : find_quadrant b qa = some 1 := ha
    have hb' : find_quadrant b qb = some 2 := hb
    rw [find_quadrant_eq_some1] at ha'
    rw [find_quadrant_eq_some2] at hb'
    exact rects_sep_y _ _ (lt_of_lt_of_le ha'.2.2.2 hb'.2.2.2.2)
  · have ha' : find_quadrant b qa = some 1 := ha
    have hb' : find_quadrant b qb = some 3 := hb
    rw [find_quadrant_eq_some1] at ha'
    rw [find_quadrant_eq_some3] at hb'
    rw [rects_intersect_comm]
    exact rects_sep_x _ _ (lt_of_lt_of_le hb'.2.1 ha'.2.2.1)
  · have ha' : find_quadrant b qa = some 2 := ha
    have hb' : find_quadrant b qb = some 0 := hb
    rw [find_quadrant_eq_some2] at ha'
    rw [find_quadrant_eq_some0] at hb'
    rw [rects_intersect_comm]
    exact rects_sep_x _ _ (lt_of_lt_of_le hb'.2.1 ha'.2.2.1)
  · have ha' : find_quadrant b qa = some 2 := ha
    have hb' : find_quadrant b qb = some 1 := hb
    rw [find_quadrant_eq_some2] at ha'
    rw [find_quadrant_eq_some1] at hb'
    rw [rects_intersect_comm]
    exact rects_sep_y _ _ (lt_of_lt_of_le hb'.2.2.2 ha'.2.2.2.2)
  · exact absurd rfl hij
  · have ha' : find_quadrant b qa = some 2 := ha
    have hb' : find_quadrant b qb = some 3 := hb
    rw [find_quadrant_eq_some2] at ha'
    rw [find_quadrant_eq_some3] at hb'
    rw [rects_intersect_comm]
    exact rects_sep_x _ _ (lt_of_lt_of_le hb'.2.1 ha'.2.2.1)
  · have ha' : find_quadrant b qa = some 3 := ha
    have hb' : find_quadrant b qb = some 0 := hb
    rw [find_quadrant_eq_some3] at ha'
    rw [find_quadrant_eq_some0] at hb'
    rw [rects_intersect_comm]
    exact rects_sep_y _ _ (lt_of_lt_of_le hb'.2.2 ha'.2.2.2)
  · have ha' : find_quadrant b qa = some 3 := ha
    have hb' : find_quadrant b qb = some 1 := hb
    rw [find_quadrant_eq_some3] at ha'
    rw [find_quadrant_eq_some1] at hb'
    exact rects_sep_x _ _ (lt_of_lt_of_le ha'.2.1 hb'.2.2.1)
  · have ha' : find_quadrant b qa = some 3 := ha
    have hb' : find_quadrant b qb = some 2 := hb
    rw [find_quadrant_eq_some3] at ha'
    rw [find_quadrant_eq_some2] at hb'
    exact rects_sep_x _ _ (lt_of_lt_of_le ha'.2.1 hb'.2.2.1)
  · exact absurd rfl hij

end Exigra

namespace Exigra

variable {T : Type} [AsQuadVal T]

theorem findInDesc_eq (c : QNode T) (v : T) :
    c.findInDesc v =
      (c.allVals.filter fun other => (as_quad_val v).intersects (as_quad_val other)).map
        fun other => (v, other) := by
  induction c with
  | leaf vs => rfl
  | node c0 c1 c2 c3 vs ih0 ih1 ih2 ih3 =>
    simp only [QNode.findInDesc, QNode.allVals, List.filter_append, List.map_append,
      ih0, ih1, ih2, ih3]

/-- Decides whether a pair is the ordered pair `(a, b)` or `(b, a)`. -/
def pairPred [DecidableEq T] (a b : T) : T × T → Bool :=
  fun p => decide (p = (a, b) ∨ p = (b, a))

theorem countP_mem_filter [DecidableEq T] (a : T) (l : List T) (hl : l.Nodup) (f : T → Bool) :
    List.countP (fun y => decide (y = a)) (l.filter f) =
      if a ∈ l ∧ f a = true then 1 else 0 := by
  induction l with
  | nil => simp
  | cons x xs ih =>
    rw [List.nodup_cons] at hl
    obtain ⟨hx, hxs⟩ := hl
    rw [List.filter_cons]
    by_cases hxa : x = a
    · subst hxa
      by_cases hfx : f x = true
      · rw [if_pos hfx, List.countP_cons, ih hxs]
        simp [hx, hfx]
      · rw [if_neg hfx, ih hxs]
        simp [hx, hfx]
    · by_cases hfx : f x = true
      · rw [if_pos hfx, List.countP_cons, ih hxs]
        simp [hxa, Ne.symm hxa, List.mem_cons]
      · rw [if_neg hfx, ih hxs]
        simp [Ne.symm hxa, List.mem_cons]

theorem countP_pairs_map [DecidableEq T] (a b x : T) (hab : a ≠ b) (l : List T)
    (hl : l.Nodup) (f : T → Bool) :
    List.countP (pairPred a b) ((l.filter f).map fun y => (x, y)) =
      (if x = a then (if b ∈ l ∧ f b = true then 1 else 0) else 0) +
      (if x = b then (if a ∈ l ∧ f a = true then 1 else 0) else 0) := by
  rw [List.countP_map]
  by_cases hxa : x = a
  · subst hxa
    rw [List.countP_congr
      (show ∀ y ∈ l.filter f, (pairPred x b ∘ fun y => (x, y)) y = true ↔
          (fun y => decide (y = b)) y = true from by
        intro y hy
        simp [pairPred, Prod.ext_iff, hab])]
    rw [countP_mem_filter b l hl f]
    simp [hab, Ne.symm hab]
  · by_cases hxb : x = b
    · subst hxb
      rw [List.countP_congr
        (show ∀ y ∈ l.filter f, (pairPred a x ∘ fun y => (x, y)) y = true ↔
            (fun y => decide (y = a)) y = true from by
          intro y hy
          simp [pairPred, Prod.ext_iff, hab, Ne.symm hab])]
      rw [countP_mem_filter a l hl f]
      simp [hab, Ne.symm hab, hxa]
    · rw [List.countP_eq_zero.mpr
        (by
          intro y hy
          simp [pairPred, Prod.ext_iff, hxa, hxb])]
      simp [hxa, hxb]

end Exigra

namespace Exigra

variable {T : Type} [AsQuadVal T]

theorem countP_findInDesc [DecidableEq T] (a b v : T) (hab : a ≠ b) (c : QNode T)
    (hnd : c.allVals.Nodup) :
    List.countP (pairPred a b) (c.findInDesc v) =
      (if v = a then (if b ∈ c.allVals ∧
          (as_quad_val a).intersects (as_quad_val b) = true then 1 else 0) else 0) +
      (if v = b then (if a ∈ c.allVals ∧
          (as_quad_val a).intersects (as_quad_val b) = true then 1 else 0) else 0) := by
  rw [findInDesc_eq, countP_pairs_map a b v hab _ hnd]
  by_cases hva : v = a
  · subst hva
    simp [hab]
  · by_cases hvb : v = b
    · subst hvb
      rw [QuadVal.intersects_comm (as_quad_val v) (as_quad_val a)]
      simp [hva]
    · simp [hva, hvb]

theorem countP_flatten_map (g : T → List (T × T)) (vs : List T) (p : T × T → Bool) :
    List.countP p ((vs.map g).flatten) = (vs.map fun v => List.countP p (g v)).sum := by
  induction vs with
  | nil => rfl
  | cons x xs ih => simp [List.flatten_cons, List.countP_append, ih]

theorem sum_map_two [DecidableEq T] (a b : T) (hab : a ≠ b) (g : T → ℕ) (α β : ℕ)
    (hga : g a = α) (hgb : g b = β) (h0 : ∀ x, x ≠ a → x ≠ b → g x = 0) :
    ∀ vs : List T, vs.Nodup →
      (vs.map g).sum = (if a ∈ vs then α else 0) + (if b ∈ vs then β else 0) := by
  intro vs
  induction vs with
  | nil => simp
  | cons x xs ih =>
    intro hnd
    rw [List.nodup_cons] at hnd
    obtain ⟨hx, hxs⟩ := hnd
    simp only [List.map_cons, List.sum_cons, ih hxs, List.mem_cons]
    by_cases hxa : x = a
    · rw [hxa] at hx ⊢
      rw [hga, if_pos (Or.inl rfl), if_neg hx,
        if_congr (or_iff_right (show ¬ b = a from fun h => hab h.symm)) rfl rfl]
      omega
    · by_cases hxb : x = b
      · rw [hxb] at hx ⊢
        rw [hgb, if_neg hx, if_pos (Or.inl rfl),
          if_congr (or_iff_right (show ¬ a = b from hab)) rfl rfl]
        omega
      · rw [h0 x hxa hxb,
          if_congr (or_iff_right (show ¬ a = x from fun h => hxa h.symm)) rfl rfl,
          if_congr (or_iff_right (show ¬ b = x from fun h => hxb h.symm)) rfl rfl]
        omega

end Exigra

namespace Exigra

variable {T : Type} [AsQuadVal T]

theorem countP_selfPairsAux [DecidableEq T] (a b : T) (hab : a ≠ b) :
    ∀ (rest pre : List T), (pre ++ rest).Nodup →
      List.countP (pairPred a b) (selfPairsAux pre rest) =
        if ((a ∈ pre ∧ b ∈ rest) ∨ (b ∈ pre ∧ a ∈ rest) ∨ (a ∈ rest ∧ b ∈ rest)) ∧
            (as_quad_val a).intersects (as_quad_val b) = true then 1 else 0 := by
  intro rest
  induction rest with
  | nil =>
    intro pre h
    simp [selfPairsAux]
  | cons x rest ih =>
    intro pre h
    have h' : ((pre ++ [x]) ++ rest).Nodup := by
      rw [List.append_assoc]
      exact h
    have hnd1 := List.nodup_append.mp h'
    have hpre : pre.Nodup := (List.nodup_append.mp hnd1.1).1
    have hxpre : x ∉ pre := by
      intro hc
      exact (List.nodup_append.mp hnd1.1).2.2 hc (by simp)
    have hxrest : x ∉ rest := by
      intro hc
      exact hnd1.2.2 (by simp) hc
    have hprerest : ∀ y ∈ pre, y ∉ rest := by
      intro y hy hc
      exact hnd1.2.2 (by simp [hy]) hc
    rw [selfPairsAux, List.countP_append, countP_pairs_map a b x hab pre hpre,
      ih (pre ++ [x]) h']
    by_cases hxa : x = a
    · rw [hxa] at hxpre hxrest ⊢
      rw [if_pos rfl, if_neg (show ¬ a = b from hab)]
      by_cases hbp : b ∈ pre
      · by_cases hbr : b ∈ rest
        · exact absurd hbr (hprerest b hbp)
        · simp [hbp, hbr, hxpre, hxrest, hab, Ne.symm hab, List.mem_append, List.mem_cons]
      · by_cases hbr : b ∈ rest
        · simp [hbp, hbr, hxpre, hxrest, hab, Ne.symm hab, List.mem_append, List.mem_cons]
        · simp [hbp, hbr, hxpre, hxrest, hab, Ne.symm hab, List.mem_append, List.mem_cons]
    · by_cases hxb : x = b
      · rw [hxb] at hxpre hxrest ⊢
        rw [if_neg (show ¬ b = a from fun h2 => hab h2.symm), if_pos rfl,
          QuadVal.intersects_comm (as_quad_val b) (as_quad_val a)]
        by_cases hap : a ∈ pre
        · by_cases har : a ∈ rest
          · exact absurd har (hprerest a hap)
          · simp [hap, har, hxpre, hxrest, hab, Ne.symm hab, List.mem_append, List.mem_cons]
        · by_cases har : a ∈ rest
          · simp [hap, har, hxpre, hxrest, hab, Ne.symm hab, List.mem_append, List.mem_cons]
          · simp [hap, har, hxpre, hxrest, hab, Ne.symm hab, List.mem_append, List.mem_cons]
      · have hax : ¬ a = x := fun h2 => hxa h2.symm
        have hbx : ¬ b = x := fun h2 => hxb h2.symm
        rw [if_neg hxa, if_neg hxb]
        simp [hax, hbx, List.mem_append, List.mem_cons]

theorem countP_selfPairs [DecidableEq T] (a b : T) (hab : a ≠ b) (vs : List T)
    (hnd : vs.Nodup) :
    List.countP (pairPred a b) (selfPairs vs) =
      if (a ∈ vs ∧ b ∈ vs) ∧ (as_quad_val a).intersects (as_quad_val b) = true
      then 1 else 0 := by
  rw [selfPairs, countP_selfPairsAux a b hab vs [] (by simpa using hnd)]
  simp

end Exigra

namespace Exigra

variable {T : Type} [AsQuadVal T]

theorem nodup_five {l0 l1 l2 l3 l4 : List T} (h : (l0 ++ l1 ++ l2 ++ l3 ++ l4).Nodup) :
    (l0.Nodup ∧ l1.Nodup ∧ l2.Nodup ∧ l3.Nodup ∧ l4.Nodup) ∧
    (∀ x ∈ l1, x ∉ l0) ∧ (∀ x ∈ l2, x ∉ l0) ∧ (∀ x ∈ l3, x ∉ l0) ∧ (∀ x ∈ l4, x ∉ l0) ∧
    (∀ x ∈ l2, x ∉ l1) ∧ (∀ x ∈ l3, x ∉ l1) ∧ (∀ x ∈ l4, x ∉ l1) ∧
    (∀ x ∈ l3, x ∉ l2) ∧ (∀ x ∈ l4, x ∉ l2) ∧ (∀ x ∈ l4, x ∉ l3) := by
  simp only [List.nodup_append, List.disjoint_append_left] at h
  obtain ⟨⟨⟨⟨h0, h1, d01⟩, h2, d02, d12⟩, h3, ⟨d03, d13⟩, d23⟩, h4, ⟨⟨d04, d14⟩, d24⟩, d34⟩ := h
  exact ⟨⟨h0, h1, h2, h3, h4⟩,
    fun x hx hc => d01 hc hx, fun x hx hc => d02 hc hx, fun x hx hc => d03 hc hx,
    fun x hx hc => d04 hc hx, fun x hx hc => d12 hc hx, fun x hx hc => d13 hc hx,
    fun x hx hc => d14 hc hx, fun x hx hc => d23 hc hx, fun x hx hc => d24 hc hx,
    fun x hx hc => d34 hc hx⟩

end Exigra

namespace Exigra

variable {T : Type} [AsQuadVal T]

set_option maxHeartbeats 4000000 in
theorem countP_findAll [DecidableEq T] (a b : T) (hab : a ≠ b) :
    ∀ (n : QNode T) (bounds : Rect), Inv bounds n → n.allVals.Nodup →
      (∀ x ∈ n.allVals, WFVal (as_quad_val x)) →
      List.countP (pairPred a b) n.findAll =
        if a ∈ n.allVals ∧ b ∈ n.allVals ∧
            (as_quad_val a).intersects (as_quad_val b) = true then 1 else 0 := by
  intro n
  induction n with
  | leaf vs =>
    intro bounds hInv hnd hwf
    rw [show (QNode.leaf vs : QNode T).findAll = selfPairs vs from rfl,
      countP_selfPairs a b hab vs hnd]
    simp [QNode.allVals, and_assoc]
  | node c0 c1 c2 c3 vs ih0 ih1 ih2 ih3 =>
    intro bounds hInv hnd hwf
    simp only [Inv] at hInv
    obtain ⟨⟨h0m, h0i⟩, ⟨h1m, h1i⟩, ⟨h2m, h2i⟩, ⟨h3m, h3i⟩⟩ := hInv
    have hnd' : (vs ++ c0.allVals ++ c1.allVals ++ c2.allVals ++ c3.allVals).Nodup := hnd
    obtain ⟨⟨hnds, hnd0, hnd1, hnd2, hnd3⟩, d10, d20, d30, d40, d21, d31, d41, d32, d42,
      d43⟩ := nodup_five hnd'
    have hwfm : ∀ x, (x ∈ vs ∨ x ∈ c0.allVals ∨ x ∈ c1.allVals ∨ x ∈ c2.allVals ∨
        x ∈ c3.allVals) → WFVal (as_quad_val x) := by
      intro x hx
      apply hwf
      simp only [QNode.allVals, List.mem_append]
      tauto
    have hwf0 : ∀ x ∈ c0.allVals, WFVal (as_quad_val x) := fun x hx => hwfm x (by tauto)
    have hwf1 : ∀ x ∈ c1.allVals, WFVal (as_quad_val x) := fun x hx => hwfm x (by tauto)
    have hwf2 : ∀ x ∈ c2.allVals, WFVal (as_quad_val x) := fun x hx => hwfm x (by tauto)
    have hwf3 : ∀ x ∈ c3.allVals, WFVal (as_quad_val x) := fun x hx => hwfm x (by tauto)
    have g0a : List.countP (pairPred a b) (c0.findInDesc a) =
        if b ∈ c0.allVals ∧ (as_quad_val a).intersects (as_quad_val b) = true
        then 1 else 0 := by
      rw [countP_findInDesc a b a hab c0 hnd0]
      simp [hab]
    have g0b : List.countP (pairPred a b) (c0.findInDesc b) =
        if a ∈ c0.allVals ∧ (as_quad_val a).intersects (as_quad_val b) = true
        then 1 else 0 := by
      rw [countP_findInDesc a b b hab c0 hnd0]
      simp [Ne.symm hab]
    have g0z : ∀ x, x ≠ a → x ≠ b →
        List.countP (pairPred a b) (c0.findInDesc x) = 0 := by
      intro x hxa hxb
      rw [countP_findInDesc a b x hab c0 hnd0]
      simp [hxa, hxb]
    have g1a : List.countP (pairPred a b) (c1.findInDesc a) =
        if b ∈ c1.allVals ∧ (as_quad_val a).intersects (as_quad_val b) = true
        then 1 else 0 := by
      rw [countP_findInDesc a b a hab c1 hnd1]
      simp [hab]
    have g1b : List.countP (pairPred a b) (c1.findInDesc b) =
        if a ∈ c1.allVals ∧ (as_quad_val a).intersects (as_quad_val b) = true
        then 1 else 0 := by
      rw [countP_findInDesc a b b hab c1 hnd1]
      simp [Ne.symm hab]
    have g1z : ∀ x, x ≠ a → x ≠ b →
        List.countP (pairPred a b) (c1.findInDesc x) = 0 := by
      intro x hxa hxb
      rw [countP_findInDesc a b x hab c1 hnd1]
      simp [hxa, hxb]
    have g2a : List.countP (pairPred a b) (c2.findInDesc a) =
        if b ∈ c2.allVals ∧ (as_quad_val a).intersects (as_quad_val b) = true
        then 1 else 0 := by
      rw [countP_findInDesc a b a hab c2 hnd2]
      simp [hab]
    have g2b : List.countP (pairPred a b) (c2.findInDesc b) =
        if a ∈ c2.allVals ∧ (as_quad_val a).intersects (as_quad_val b) = true
        then 1 else 0 := by
      rw [countP_findInDesc a b b hab c2 hnd2]
      simp [Ne.symm hab]
    have g2z : ∀ x, x ≠ a → x ≠ b →
        List.countP (pairPred a b) (c2.findInDesc x) = 0 := by
      intro x hxa hxb
      rw [countP_findInDesc a b x hab c2 hnd2]
      simp [hxa, hxb]
    have g3a : List.countP (pairPred a b) (c3.findInDesc a) =
        if b ∈ c3.allVals ∧ (as_quad_val a).intersects (as_quad_val b) = true
        then 1 else 0 := by
      rw [countP_findInDesc a b a hab c3 hnd3]
      simp [hab]
    have g3b : List.countP (pairPred a b) (c3.findInDesc b) =
        if a ∈ c3.allVals ∧ (as_quad_val a).intersects (as_quad_val b) = true
        then 1 else 0 := by
      rw [countP_findInDesc a b b hab c3 hnd3]
      simp [Ne.symm hab]
    have g3z : ∀ x, x ≠ a → x ≠ b →
        List.countP (pairPred a b) (c3.findInDesc x) = 0 := by
      intro x hxa hxb
      rw [countP_findInDesc a b x hab c3 hnd3]
      simp [hxa, hxb]
    rw [show (QNode.node c0 c1 c2 c3 vs).findAll = selfPairs vs
        ++ ((vs.map fun v => c0.findInDesc v).flatten ++ c0.findAll)
        ++ ((vs.map fun v => c1.findInDesc v).flatten ++ c1.findAll)
        ++ ((vs.map fun v => c2.findInDesc v).flatten ++ c2.findAll)
        ++ ((vs.map fun v => c3.findInDesc v).flatten ++ c3.findAll) from rfl]
    simp only [List.countP_append]
    rw [countP_selfPairs a b hab vs hnds,
      countP_flatten_map (fun v => c0.findInDesc v) vs (pairPred a b),
      countP_flatten_map (fun v => c1.findInDesc v) vs (pairPred a b),
      countP_flatten_map (fun v => c2.findInDesc v) vs (pairPred a b),
      countP_flatten_map (fun v => c3.findInDesc v) vs (pairPred a b),
      sum_map_two a b hab (fun v => List.countP (pairPred a b) (c0.findInDesc v)) _ _ g0a g0b g0z vs hnds,
      sum_map_two a b hab (fun v => List.countP (pairPred a b) (c1.findInDesc v)) _ _ g1a g1b g1z vs hnds,
      sum_map_two a b hab (fun v => List.countP (pairPred a b) (c2.findInDesc v)) _ _ g2a g2b g2z vs hnds,
      sum_map_two a b hab (fun v => List.countP (pairPred a b) (c3.findInDesc v)) _ _ g3a g3b g3z vs hnds,
      ih0 (compute_bounds bounds 0) h0i hnd0 hwf0,
      ih1 (compute_bounds bounds 1) h1i hnd1 hwf1,
      ih2 (compute_bounds bounds 2) h2i hnd2 hwf2,
      ih3 (compute_bounds bounds 3) h3i hnd3 hwf3]
    by_cases hI : (as_quad_val a).intersects (as_quad_val b) = true
    · simp only [hI, and_true]
      by_cases hav : a ∈ vs
      · have ha0 : a ∉ c0.allVals := fun hc => d10 a hc hav
        have ha1 : a ∉ c1.allVals := fun hc => d20 a hc hav
        have ha2 : a ∉ c2.allVals := fun hc => d30 a hc hav
        have ha3 : a ∉ c3.allVals := fun hc => d40 a hc hav
        by_cases hbv : b ∈ vs
        · have hb0 : b ∉ c0.allVals := fun hc => d10 b hc hbv
          have hb1 : b ∉ c1.allVals := fun hc => d20 b hc hbv
          have hb2 : b ∉ c2.allVals := fun hc => d30 b hc hbv
          have hb3 : b ∉ c3.allVals := fun hc => d40 b hc hbv
          simp [hav, ha0, ha1, ha2, ha3, hbv, hb0, hb1, hb2, hb3, QNode.allVals, List.mem_append]
        · by_cases hb0 : b ∈ c0.allVals
          · have hb1 : b ∉ c1.allVals := fun hc => d21 b hc hb0
            have hb2 : b ∉ c2.allVals := fun hc => d31 b hc hb0
            have hb3 : b ∉ c3.allVals := fun hc => d41 b hc hb0
            simp [hav, ha0, ha1, ha2, ha3, hbv, hb0, hb1, hb2, hb3, QNode.allVals, List.mem_append]
          · by_cases hb1 : b ∈ c1.allVals
            · have hb2 : b ∉ c2.allVals := fun hc => d32 b hc hb1
              have hb3 : b ∉ c3.allVals := fun hc => d42 b hc hb1
              simp [hav, ha0, ha1, ha2, ha3, hbv, hb0, hb1, hb2, hb3, QNode.allVals, List.mem_append]
            · by_cases hb2 : b ∈ c2.allVals
              · have hb3 : b ∉ c3.allVals := fun hc => d43 b hc hb2
                simp [hav, ha0, ha1, ha2, ha3, hbv, hb0, hb1, hb2, hb3, QNode.allVals, List.mem_append]
              · by_cases hb3 : b ∈ c3.allVals
                · simp [hav, ha0, ha1, ha2, ha3, hbv, hb0, hb1, hb2, hb3, QNode.allVals, List.mem_append]
                · simp [hav, ha0, ha1, ha2, ha3, hbv, hb0, hb1, hb2, hb3, QNode.allVals, List.mem_append]
      · by_cases ha0 : a ∈ c0.allVals
        · have ha1 : a ∉ c1.allVals := fun hc => d21 a hc ha0
          have ha2 : a ∉ c2.allVals := fun hc => d31 a hc ha0
          have ha3 : a ∉ c3.allVals := fun hc => d41 a hc ha0
          by_cases hbv : b ∈ vs
          · have hb0 : b ∉ c0.allVals := fun hc => d10 b hc hbv
            have hb1 : b ∉ c1.allVals := fun hc => d20 b hc hbv
            have hb2 : b ∉ c2.allVals := fun hc => d30 b hc hbv
            have hb3 : b ∉ c3.allVals := fun hc => d40 b hc hbv
            simp [hav, ha0, ha1, ha2, ha3, hbv, hb0, hb1, hb2, hb3, QNode.allVals, List.mem_append]
          · by_cases hb0 : b ∈ c0.allVals
            · have hb1 : b ∉ c1.allVals := fun hc => d21 b hc hb0
              have hb2 : b ∉ c2.allVals := fun hc => d31 b hc hb0
              have hb3 : b ∉ c3.allVals := fun hc => d41 b hc hb0
              simp [hav, ha0, ha1, ha2, ha3, hbv, hb0, hb1, hb2, hb3, QNode.allVals, List.mem_append]
            · by_cases hb1 : b ∈ c1.allVals
              · have hb2 : b ∉ c2.allVals := fun hc => d32 b hc hb1
                have hb3 : b ∉ c3.allVals := fun hc => d42 b hc hb1
                exfalso
                have hwa : WFVal (as_quad_val a) := hwfm a (by tauto)
                have hwb : WFVal (as_quad_val b) := hwfm b (by tauto)
                have hsep := quadrant_sep bounds (as_quad_val a) (as_quad_val b) 0 1
                  (by decide) (h0m a ha0) (h1m b hb1)
                have haabb := intersects_imp_aabb (as_quad_val a) (as_quad_val b) hwa hwb hI
                rw [hsep] at haabb
                simp at haabb
              · by_cases hb2 : b ∈ c2.allVals
                · have hb3 : b ∉ c3.allVals := fun hc => d43 b hc hb2
                  exfalso
                  have hwa : WFVal (as_quad_val a) := hwfm a (by tauto)
                  have hwb : WFVal (as_quad_val b) := hwfm b (by tauto)
                  have hsep := quadrant_sep bounds (as_quad_val a) (as_quad_val b) 0 2
                    (by decide) (h0m a ha0) (h2m b hb2)
                  have haabb := intersects_imp_aabb (as_quad_val a) (as_quad_val b) hwa hwb hI
                  rw [hsep] at haabb
                  simp at haabb
                · by_cases hb3 : b ∈ c3.allVals
                  · exfalso
                    have hwa : WFVal (as_quad_val a) := hwfm a (by tauto)
                    have hwb : WFVal (as_quad_val b) := hwfm b (by tauto)
                    have hsep := quadrant_sep bounds (as_quad_val a) (as_quad_val b) 0 3
                      (by decide) (h0m a ha0) (h3m b hb3)
                    have haabb := intersects_imp_aabb (as_quad_val a) (as_quad_val b) hwa hwb hI
                    rw [hsep] at haabb
                    simp at haabb
                  · simp [hav, ha0, ha1, ha2, ha3, hbv, hb0, hb1, hb2, hb3, QNode.allVals, List.mem_append]
        · by_cases ha1 : a ∈ c1.allVals
          · have ha2 : a ∉ c2.allVals := fun hc => d32 a hc ha1
            have ha3 : a ∉ c3.allVals := fun hc => d42 a hc ha1
            by_cases hbv : b ∈ vs
            · have hb0 : b ∉ c0.allVals := fun hc => d10 b hc hbv
              have hb1 : b ∉ c1.allVals := fun hc => d20 b hc hbv
              have hb2 : b ∉ c2.allVals := fun hc => d30 b hc hbv
              have hb3 : b ∉ c3.allVals := fun hc => d40 b hc hbv
              simp [hav, ha0, ha1, ha2, ha3, hbv, hb0, hb1, hb2, hb3, QNode.allVals, List.mem_append]
            · by_cases hb0 : b ∈ c0.allVals
              · have hb1 : b ∉ c1.allVals := fun hc => d21 b hc hb0
                have hb2 : b ∉ c2.allVals := fun hc => d31 b hc hb0
                have hb3 : b ∉ c3.allVals := fun hc => d41 b hc hb0
                exfalso
                have hwa : WFVal (as_quad_val a) := hwfm a (by tauto)
                have hwb : WFVal (as_quad_val b) := hwfm b (by tauto)
                have hsep := quadrant_sep bounds (as_quad_val a) (as_quad_val b) 1 0
                  (by decide) (h1m a ha1) (h0m b hb0)
                have haabb := intersects_imp_aabb (as_quad_val a) (as_quad_val b) hwa hwb hI
                rw [hsep] at haabb
                simp at haabb
              · by_cases hb1 : b ∈ c1.allVals
                · have hb2 : b ∉ c2.allVals := fun hc => d32 b hc hb1
                  have hb3 : b ∉ c3.allVals := fun hc => d42 b hc hb1
                  simp [hav, ha0, ha1, ha2, ha3, hbv, hb0, hb1, hb2, hb3, QNode.allVals, List.mem_append]
                · by_cases hb2 : b ∈ c2.allVals
                  · have hb3 : b ∉ c3.allVals := fun hc => d43 b hc hb2
                    exfalso
                    have hwa : WFVal (as_quad_val a) := hwfm a (by tauto)
                    have hwb : WFVal (as_quad_val b) := hwfm b (by tauto)
                    have hsep := quadrant_sep bounds (as_quad_val a) (as_quad_val b) 1 2
                      (by decide) (h1m a ha1) (h2m b hb2)
                    have haabb := intersects_imp_aabb (as_quad_val a) (as_quad_val b) hwa hwb hI
                    rw [hsep] at haabb
                    simp at haabb
                  · by_cases hb3 : b ∈ c3.allVals
                    · exfalso
                      have hwa : WFVal (as_quad_val a) := hwfm a (by tauto)
                      have hwb : WFVal (as_quad_val b) := hwfm b (by tauto)
                      have hsep := quadrant_sep bounds (as_quad_val a) (as_quad_val b) 1 3
                        (by decide) (h1m a ha1) (h3m b hb3)
                      have haabb := intersects_imp_aabb (as_quad_val a) (as_quad_val b) hwa hwb hI
                      rw [hsep] at haabb
                      simp at haabb
                    · simp [hav, ha0, ha1, ha2, ha3, hbv, hb0, hb1, hb2, hb3, QNode.allVals, List.mem_append]
          · by_cases ha2 : a ∈ c2.allVals
            · have ha3 : a ∉ c3.allVals := fun hc => d43 a hc ha2
              by_cases hbv : b ∈ vs
              · have hb0 : b ∉ c0.allVals := fun hc => d10 b hc hbv
                have hb1 : b ∉ c1.allVals := fun hc => d20 b hc hbv
                have hb2 : b ∉ c2.allVals := fun hc => d30 b hc hbv
                have hb3 : b ∉ c3.allVals := fun hc => d40 b hc hbv
                simp [hav, ha0, ha1, ha2, ha3, hbv, hb0, hb1, hb2, hb3, QNode.allVals, List.mem_append]
              · by_cases hb0 : b ∈ c0.allVals
                · have hb1 : b ∉ c1.allVals := fun hc => d21 b hc hb0
                  have hb2 : b ∉ c2.allVals := fun hc => d31 b hc hb0
                  have hb3 : b ∉ c3.allVals := fun hc => d41 b hc hb0
                  exfalso
                  have hwa : WFVal (as_quad_val a) := hwfm a (by tauto)
                  have hwb : WFVal (as_quad_val b) := hwfm b (by tauto)
                  have hsep := quadrant_sep bounds (as_quad_val a) (as_quad_val b) 2 0
                    (by decide) (h2m a ha2) (h0m b hb0)
                  have haabb := intersects_imp_aabb (as_quad_val a) (as_quad_val b) hwa hwb hI
                  rw [hsep] at haabb
                  simp at haabb
                · by_cases hb1 : b ∈ c1.allVals
                  · have hb2 : b ∉ c2.allVals := fun hc => d32 b hc hb1
                    have hb3 : b ∉ c3.allVals := fun hc => d42 b hc hb1
                    exfalso
                    have hwa : WFVal (as_quad_val a) := hwfm a (by tauto)
                    have hwb : WFVal (as_quad_val b) := hwfm b (by tauto)
                    have hsep := quadrant_sep bounds (as_quad_val a) (as_quad_val b) 2 1
                      (by decide) (h2m a ha2) (h1m b hb1)
                    have haabb := intersects_imp_aabb (as_quad_val a) (as_quad_val b) hwa hwb hI
                    rw [hsep] at haabb
                    simp at haabb
                  · by_cases hb2 : b ∈ c2.allVals
                    · have hb3 : b ∉ c3.allVals := fun hc => d43 b hc hb2
                      simp [hav, ha0, ha1, ha2, ha3, hbv, hb0, hb1, hb2, hb3, QNode.allVals, List.mem_append]
                    · by_cases hb3 : b ∈ c3.allVals
                      · exfalso
                        have hwa : WFVal (as_quad_val a) := hwfm a (by tauto)
                        have hwb : WFVal (as_quad_val b) := hwfm b (by tauto)
                        have hsep := quadrant_sep bounds (as_quad_val a) (as_quad_val b) 2 3
                          (by decide) (h2m a ha2) (h3m b hb3)
                        have haabb := intersects_imp_aabb (as_quad_val a) (as_quad_val b) hwa hwb hI
                        rw [hsep] at haabb
                        simp at haabb
                      · simp [hav, ha0, ha1, ha2, ha3, hbv, hb0, hb1, hb2, hb3, QNode.allVals, List.mem_append]
            · by_cases ha3 : a ∈ c3.allVals
              · by_cases hbv : b ∈ vs
                · have hb0 : b ∉ c0.allVals := fun hc => d10 b hc hbv
                  have hb1 : b ∉ c1.allVals := fun hc => d20 b hc hbv
                  have hb2 : b ∉ c2.allVals := fun hc => d30 b hc hbv
                  have hb3 : b ∉ c3.allVals := fun hc => d40 b hc hbv
                  simp [hav, ha0, ha1, ha2, ha3, hbv, hb0, hb1, hb2, hb3, QNode.allVals, List.mem_append]
                · by_cases hb0 : b ∈ c0.allVals
                  · have hb1 : b ∉ c1.allVals := fun hc => d21 b hc hb0
                    have hb2 : b ∉ c2.allVals := fun hc => d31 b hc hb0
                    have hb3 : b ∉ c3.allVals := fun hc => d41 b hc hb0
                    exfalso
                    have hwa : WFVal (as_quad_val a) := hwfm a (by tauto)
                    have hwb : WFVal (as_quad_val b) := hwfm b (by tauto)
                    have hsep := quadrant_sep bounds (as_quad_val a) (as_quad_val b) 3 0
                      (by decide) (h3m a ha3) (h0m b hb0)
                    have haabb := intersects_imp_aabb (as_quad_val a) (as_quad_val b) hwa hwb hI
                    rw [hsep] at haabb
                    simp at haabb
                  · by_cases hb1 : b ∈ c1.allVals
                    · have hb2 : b ∉ c2.allVals := fun hc => d32 b hc hb1
                      have hb3 : b ∉ c3.allVals := fun hc => d42 b hc hb1
                      exfalso
                      have hwa : WFVal (as_quad_val a) := hwfm a (by tauto)
                      have hwb : WFVal (as_quad_val b) := hwfm b (by tauto)
                      have hsep := quadrant_sep bounds (as_quad_val a) (as_quad_val b) 3 1
                        (by decide) (h3m a ha3) (h1m b hb1)
                      have haabb := intersects_imp_aabb (as_quad_val a) (as_quad_val b) hwa hwb hI
                      rw [hsep] at haabb
                      simp at haabb
                    · by_cases hb2 : b ∈ c2.allVals
                      · have hb3 : b ∉ c3.allVals := fun hc => d43 b hc hb2
                        exfalso
                        have hwa : WFVal (as_quad_val a) := hwfm a (by tauto)
                        have hwb : WFVal (as_quad_val b) := hwfm b (by tauto)
                        have hsep := quadrant_sep bounds (as_quad_val a) (as_quad_val b) 3 2
                          (by decide) (h3m a ha3) (h2m b hb2)
                        have haabb := intersects_imp_aabb (as_quad_val a) (as_quad_val b) hwa hwb hI
                        rw [hsep] at haabb
                        simp at haabb
                      · by_cases hb3 : b ∈ c3.allVals
                        · simp [hav, ha0, ha1, ha2, ha3, hbv, hb0, hb1, hb2, hb3, QNode.allVals, List.mem_append]
                        · simp [hav, ha0, ha1, ha2, ha3, hbv, hb0, hb1, hb2, hb3, QNode.allVals, List.mem_append]
              · by_cases hbv : b ∈ vs
                · have hb0 : b ∉ c0.allVals := fun hc => d10 b hc hbv
                  have hb1 : b ∉ c1.allVals := fun hc => d20 b hc hbv
                  have hb2 : b ∉ c2.allVals := fun hc => d30 b hc hbv
                  have hb3 : b ∉ c3.allVals := fun hc => d40 b hc hbv
                  simp [hav, ha0, ha1, ha2, ha3, hbv, hb0, hb1, hb2, hb3, QNode.allVals, List.mem_append]
                · by_cases hb0 : b ∈ c0.allVals
                  · have hb1 : b ∉ c1.allVals := fun hc => d21 b hc hb0
                    have hb2 : b ∉ c2.allVals := fun hc => d31 b hc hb0
                    have hb3 : b ∉ c3.allVals := fun hc => d41 b hc hb0
                    simp [hav, ha0, ha1, ha2, ha3, hbv, hb0, hb1, hb2, hb3, QNode.allVals, List.mem_append]
                  · by_cases hb1 : b ∈ c1.allVals
                    · have hb2 : b ∉ c2.allVals := fun hc => d32 b hc hb1
                      have hb3 : b ∉ c3.allVals := fun hc => d42 b hc hb1
                      simp [hav, ha0, ha1, ha2, ha3, hbv, hb0, hb1, hb2, hb3, QNode.allVals, List.mem_append]
                    · by_cases hb2 : b ∈ c2.allVals
                      · have hb3 : b ∉ c3.allVals := fun hc => d43 b hc hb2
                        simp [hav, ha0, ha1, ha2, ha3, hbv, hb0, hb1, hb2, hb3, QNode.allVals, List.mem_append]
                      · by_cases hb3 : b ∈ c3.allVals
                        · simp [hav, ha0, ha1, ha2, ha3, hbv, hb0, hb1, hb2, hb3, QNode.allVals, List.mem_append]
                        · simp [hav, ha0, ha1, ha2, ha3, hbv, hb0, hb1, hb2, hb3, QNode.allVals, List.mem_append]
    · simp [hI]

end Exigra

namespace Exigra

variable {T : Type} [AsQuadVal T]

theorem mem_selfPairsAux_sound :
    ∀ (rest pre : List T) (p : T × T), p ∈ selfPairsAux pre rest →
      p.1 ∈ rest ∧ p.2 ∈ pre ++ rest ∧
      (as_quad_val p.1).intersects (as_quad_val p.2) = true ∧
      ((pre ++ rest).Nodup → p.1 ≠ p.2) := by
  intro rest
  induction rest with
  | nil =>
    intro pre p hp
    simp [selfPairsAux] at hp
  | cons x rest ih =>
    intro pre p hp
    rw [selfPairsAux, List.mem_append] at hp
    rcases hp with hp | hp
    · rw [List.mem_map] at hp
      obtain ⟨y, hy, rfl⟩ := hp
      rw [List.mem_filter] at hy
      refine ⟨List.mem_cons_self x rest, ?_, hy.2, ?_⟩
      · rw [List.mem_append]
        exact Or.inl hy.1
      · intro hnd heq
        rw [List.nodup_append] at hnd
        have heq' : x = y := heq
        exact hnd.2.2 hy.1 (heq' ▸ List.mem_cons_self x rest)
    · obtain ⟨h1, h2, h3, h4⟩ := ih (pre ++ [x]) p hp
      refine ⟨List.mem_cons_of_mem x h1, ?_, h3, ?_⟩
      · rw [List.append_assoc] at h2
        exact h2
      · intro hnd
        apply h4
        rw [List.append_assoc]
        exact hnd

set_option maxHeartbeats 2000000 in
theorem findAll_sound :
    ∀ n : QNode T, n.allVals.Nodup →
      ∀ p ∈ n.findAll, p.1 ∈ n.allVals ∧ p.2 ∈ n.allVals ∧ p.1 ≠ p.2 ∧
        (as_quad_val p.1).intersects (as_quad_val p.2) = true := by
  intro n
  induction n with
  | leaf vs =>
    intro hnd p hp
    rw [show (QNode.leaf vs : QNode T).findAll = selfPairs vs from rfl, selfPairs] at hp
    obtain ⟨h1, h2, h3, h4⟩ := mem_selfPairsAux_sound vs [] p hp
    simp only [List.nil_append] at h2 h4
    exact ⟨h1, h2, h4 hnd, h3⟩
  | node c0 c1 c2 c3 vs ih0 ih1 ih2 ih3 =>
    intro hnd p hp
    have hnd' : (vs ++ c0.allVals ++ c1.allVals ++ c2.allVals ++ c3.allVals).Nodup := hnd
    obtain ⟨⟨hnds, hnd0, hnd1, hnd2, hnd3⟩, d10, d20, d30, d40, d21, d31, d41, d32, d42,
      d43⟩ := nodup_five hnd'
    have inAll : ∀ y : T, (y ∈ vs ∨ y ∈ c0.allVals ∨ y ∈ c1.allVals ∨ y ∈ c2.allVals ∨
        y ∈ c3.allVals) → y ∈ (QNode.node c0 c1 c2 c3 vs).allVals := by
      intro y hy
      simp only [QNode.allVals, List.mem_append]
      tauto
    have hflat : ∀ (c : QNode T), (∀ x ∈ c.allVals, x ∉ vs) →
        p ∈ (vs.map fun v => c.findInDesc v).flatten →
        p.1 ∈ vs ∧ p.2 ∈ c.allVals ∧ p.1 ≠ p.2 ∧
          (as_quad_val p.1).intersects (as_quad_val p.2) = true := by
      intro c hdisj hp
      rw [List.mem_flatten] at hp
      obtain ⟨l, hl, hpl⟩ := hp
      rw [List.mem_map] at hl
      obtain ⟨v, hv, rfl⟩ := hl
      rw [findInDesc_eq, List.mem_map] at hpl
      obtain ⟨y, hy, rfl⟩ := hpl
      rw [List.mem_filter] at hy
      exact ⟨hv, hy.1, fun heq => hdisj y hy.1 ((show v = y from heq) ▸ hv), hy.2⟩
    rw [show (QNode.node c0 c1 c2 c3 vs).findAll = selfPairs vs
        ++ ((vs.map fun v => c0.findInDesc v).flatten ++ c0.findAll)
        ++ ((vs.map fun v => c1.findInDesc v).flatten ++ c1.findAll)
        ++ ((vs.map fun v => c2.findInDesc v).flatten ++ c2.findAll)
        ++ ((vs.map fun v => c3.findInDesc v).flatten ++ c3.findAll) from rfl] at hp
    simp only [List.mem_append] at hp
    rcases hp with ((((hp | hp) | hp) | hp) | hp)
    · rw [selfPairs] at hp
      obtain ⟨h1, h2, h3, h4⟩ := mem_selfPairsAux_sound vs [] p hp
      simp only [List.nil_append] at h2 h4
      exact ⟨inAll _ (Or.inl h1), inAll _ (Or.inl h2), h4 hnds, h3⟩
    · rcases hp with hp | hp
      · obtain ⟨h1, h2, h3, h4⟩ := hflat c0 d10 hp
        exact ⟨inAll _ (by tauto), inAll _ (by tauto), h3, h4⟩
      · obtain ⟨h1, h2, h3, h4⟩ := ih0 hnd0 p hp
        exact ⟨inAll _ (by tauto), inAll _ (by tauto), h3, h4⟩
    · rcases hp with hp | hp
      · obtain ⟨h1, h2, h3, h4⟩ := hflat c1 d20 hp
        exact ⟨inAll _ (by tauto), inAll _ (by tauto), h3, h4⟩
      · obtain ⟨h1, h2, h3, h4⟩ := ih1 hnd1 p hp
        exact ⟨inAll _ (by tauto), inAll _ (by tauto), h3, h4⟩
    · rcases hp with hp | hp
      · obtain ⟨h1, h2, h3, h4⟩ := hflat c2 d30 hp
        exact ⟨inAll _ (by tauto), inAll _ (by tauto), h3, h4⟩
      · obtain ⟨h1, h2, h3, h4⟩ := ih2 hnd2 p hp
        exact ⟨inAll _ (by tauto), inAll _ (by tauto), h3, h4⟩
    · rcases hp with hp | hp
      · obtain ⟨h1, h2, h3, h4⟩ := hflat c3 d40 hp
        exact ⟨inAll _ (by tauto), inAll _ (by tauto), h3, h4⟩
      · obtain ⟨h1, h2, h3, h4⟩ := ih3 hnd3 p hp
        exact ⟨inAll _ (by tauto), inAll _ (by tauto), h3, h4⟩

end Exigra

namespace Exigra

set_option maxRecDepth 100000

/-- Claim C2: on every reachable tree holding distinct well-formed values,
`find_all_intersections` is sound — every emitted pair consists of two
distinct stored values whose shapes intersect — and complete without
duplication: each unordered pair of distinct stored values is counted
exactly once when their shapes intersect and zero times otherwise. -/
theorem c2_find_all_exactly_once :
    ∀ (U : Type) [AsQuadVal U] [DecidableEq U] (t : Quadtree U), Reachable t →
      t.root.allVals.Nodup →
      (∀ p ∈ t.find_all_intersections, p.1 ∈ t.root.allVals ∧ p.2 ∈ t.root.allVals ∧
        p.1 ≠ p.2 ∧ (as_quad_val p.1).intersects (as_quad_val p.2) = true) ∧
      (∀ a b : U, a ≠ b →
        List.countP (pairPred a b) t.find_all_intersections =
          if a ∈ t.root.allVals ∧ b ∈ t.root.allVals ∧
              (as_quad_val a).intersects (as_quad_val b) = true then 1 else 0) := by
  intro U _ _ t ht hnd
  obtain ⟨hInv, hwf⟩ := Reachable_Inv t ht
  refine ⟨findAll_sound t.root hnd, ?_⟩
  intro a b hab
  exact countP_findAll a b hab t.root t.bounds hInv hnd hwf

/-- First witness square, centered at (2,2). -/
def c2a : QuadVal := ⟨⟨2, 2⟩, .quad (Rectangle.new 2 2)⟩

/-- Second witness square, centered at (3,3), overlapping the first. -/
def c2b : QuadVal := ⟨⟨3, 3⟩, .quad (Rectangle.new 2 2)⟩

/-- Two-insert tree used to witness claim C2. -/
def c2t : Quadtree QuadVal := ((Quadtree.new b8).insert c2a).insert c2b

/-- Witness for claim C2: the exactly-once count applied to the two-square
tree at the pair of its values. -/
theorem c2_witness :
    List.countP (pairPred c2a c2b) c2t.find_all_intersections =
      if c2a ∈ c2t.root.allVals ∧ c2b ∈ c2t.root.allVals ∧
          (as_quad_val c2a).intersects (as_quad_val c2b) = true then 1 else 0 :=
  (c2_find_all_exactly_once QuadVal c2t
      (Reachable.insert _ _
        (Reachable.insert _ _ (Reachable.new b8) (by with_unfolding_all decide))
        (by with_unfolding_all decide))
      (by with_unfolding_all decide)).2 c2a c2b (by with_unfolding_all decide)

end Exigra
